import Mathlib

/-
Verification of the terminal-hook capture service and MCP command router.

The TypeScript sources are shallowly embedded here:
  * `TerminalBufferService` (capture, normalization, session registry,
    resolution, buffer reads)  — from src/services/TerminalBufferService.ts
  * `MCPServer` (request router, tools/call dispatch, tool payloads)
      — from src/services/MCPServer.ts
  * the socket line handler — from src/extension.ts (startMCPServer)

Strings are modelled as `List Char` (`Str`).  JavaScript regular-expression
`replace` calls are modelled by equivalent single-pass character automata;
each automaton is documented next to the regex it implements.  JavaScript
`Date` values are modelled by a logical clock (a `Nat` that advances with
every host signal).  Thrown JavaScript exceptions are modelled with
`Except JsFault`.
-/

namespace TermHook

/-- Strings as lists of characters. -/
abbrev Str := List Char

/-- The escape byte 0x1B. -/
def esc : Char := '\x1b'

/-! ### Character classes of the stripping regexes -/

/-- `[@-Z\\-_]` of `/\x1B(?:[@-Z\\-_]|\[[0-?]*[SP-SLASH]*[@-~])/`:
codes 0x40–0x5A and 0x5C–0x5F (every two-byte escape final except `[`). -/
def isFe (c : Char) : Bool :=
  (0x40 ≤ c.toNat && c.toNat ≤ 0x5A) || (0x5C ≤ c.toNat && c.toNat ≤ 0x5F)

/-- CSI parameter bytes `[0-?]` = 0x30–0x3F. -/
def isParamByte (c : Char) : Bool := 0x30 ≤ c.toNat && c.toNat ≤ 0x3F

/-- CSI intermediate bytes `[SP-SLASH]` = 0x20–0x2F. -/
def isInterByte (c : Char) : Bool := 0x20 ≤ c.toNat && c.toNat ≤ 0x2F

/-- CSI final bytes `[@-~]` = 0x40–0x7E. -/
def isFinalByte (c : Char) : Bool := 0x40 ≤ c.toNat && c.toNat ≤ 0x7E

/-- The class `[\x00-\x08\x0B\x0C\x0E-\x1F]` removed by the seventh replace. -/
def isBadC0 (c : Char) : Bool :=
  c.toNat ≤ 0x08 || c.toNat = 0x0B || c.toNat = 0x0C
    || (0x0E ≤ c.toNat && c.toNat ≤ 0x1F)

/-- ECMAScript whitespace recognized by `String.prototype.trim`. -/
def isJsSpace (c : Char) : Bool :=
  c = ' ' || c = '\t' || c = '\n' || c = '\x0B' || c = '\x0C' || c = '\r'
    || c.toNat = 0xA0 || c.toNat = 0x1680
    || (0x2000 ≤ c.toNat && c.toNat ≤ 0x200A)
    || c.toNat = 0x2028 || c.toNat = 0x2029 || c.toNat = 0x202F
    || c.toNat = 0x205F || c.toNat = 0x3000 || c.toNat = 0xFEFF

/-! ### First replace: `/\x1B(?:[@-Z\\-_]|\[[0-?]*[SP-SLASH]*[@-~])/g → ''`

Implemented as a left-to-right automaton.  The mode records the pending,
not-yet-emitted, partial match; on a failed match the regex engine resumes
one position after the escape byte, and since the pending parameter and
intermediate bytes can never begin a new match (none of them is 0x1B), the
automaton may emit them and resume at the character that broke the match. -/

/-- Pending state of the CSI/two-byte-escape automaton. -/
inductive CsiMode where
  | top : CsiMode
  | afterEsc : CsiMode
  | params (seen : List Char) : CsiMode
  | inters (seen : List Char) : CsiMode

/-- What a pending partial match flushes to when input ends unmatched. -/
def csiFlush : CsiMode → List Char
  | .top => []
  | .afterEsc => [esc]
  | .params seen => esc :: '[' :: seen.reverse
  | .inters seen => esc :: '[' :: seen.reverse

/-- One-pass automaton for the first replace. -/
def csiRun (m : CsiMode) : List Char → List Char
  | [] => csiFlush m
  | c :: r =>
    match m with
    | .top => if c = esc then csiRun .afterEsc r else c :: csiRun .top r
    | .afterEsc =>
      if isFe c then csiRun .top r
      else if c = '[' then csiRun (.params []) r
      else if c = esc then esc :: csiRun .afterEsc r
      else esc :: c :: csiRun .top r
    | .params seen =>
      if isParamByte c then csiRun (.params (c :: seen)) r
      else if isInterByte c then csiRun (.inters (c :: seen)) r
      else if isFinalByte c then csiRun .top r
      else if c = esc then (esc :: '[' :: seen.reverse) ++ csiRun .afterEsc r
      else (esc :: '[' :: seen.reverse) ++ c :: csiRun .top r
    | .inters seen =>
      if isInterByte c then csiRun (.inters (c :: seen)) r
      else if isFinalByte c then csiRun .top r
      else if c = esc then (esc :: '[' :: seen.reverse) ++ csiRun .afterEsc r
      else (esc :: '[' :: seen.reverse) ++ c :: csiRun .top r

/-- `str.replace(/\x1B(?:[@-Z\\-_]|\[[0-?]*[SP-SLASH]*[@-~])/g, '')`. -/
def csiStrip (l : List Char) : List Char := csiRun .top l

/-! ### Second replace: `/\x1B\][^\x07\x1B]*(?:\x07|\x1B\\)/g → ''` -/

/-- Pending state of the OSC automaton (`sawEsc2` means: inside an OSC body a
0x1B was met, a `\` must follow to complete the terminator). -/
inductive OscMode where
  | top : OscMode
  | afterEsc : OscMode
  | body (seen : List Char) : OscMode
  | sawEsc2 (seen : List Char) : OscMode

/-- Flush of a pending partial OSC match at the end of input. -/
def oscFlush : OscMode → List Char
  | .top => []
  | .afterEsc => [esc]
  | .body seen => esc :: ']' :: seen.reverse
  | .sawEsc2 seen => (esc :: ']' :: seen.reverse) ++ [esc]

/-- One-pass automaton for the OSC replace.  On a failed match the engine
resumes right after the opening 0x1B; body characters are never 0x07 or 0x1B,
so the only position where a fresh match can begin is the terminating 0x1B
candidate itself, which the `sawEsc2` branches restart from. -/
def oscRun (m : OscMode) : List Char → List Char
  | [] => oscFlush m
  | c :: r =>
    match m with
    | .top => if c = esc then oscRun .afterEsc r else c :: oscRun .top r
    | .afterEsc =>
      if c = ']' then oscRun (.body []) r
      else if c = esc then esc :: oscRun .afterEsc r
      else esc :: c :: oscRun .top r
    | .body seen =>
      if c = '\x07' then oscRun .top r
      else if c = esc then oscRun (.sawEsc2 seen) r
      else oscRun (.body (c :: seen)) r
    | .sawEsc2 seen =>
      if c = '\\' then oscRun .top r
      else if c = ']' then (esc :: ']' :: seen.reverse) ++ oscRun (.body []) r
      else if c = esc then (esc :: ']' :: seen.reverse) ++ esc :: oscRun .afterEsc r
      else (esc :: ']' :: seen.reverse) ++ esc :: c :: oscRun .top r

/-- `str.replace(/\x1B\][^\x07\x1B]*(?:\x07|\x1B\\)/g, '')`. -/
def oscStrip (l : List Char) : List Char := oscRun .top l

/-! ### Third replace: `/\x1B[=>]/g → ''` -/

/-- One-pass automaton (the flag records a pending unmatched 0x1B). -/
def escEqGtAux (pending : Bool) : List Char → List Char
  | [] => if pending then [esc] else []
  | c :: r =>
    if pending then
      if c = '=' || c = '>' then escEqGtAux false r
      else if c = esc then esc :: escEqGtAux true r
      else esc :: c :: escEqGtAux false r
    else
      if c = esc then escEqGtAux true r else c :: escEqGtAux false r

/-- `str.replace(/\x1B[=>]/g, '')`. -/
def escEqGtStrip (l : List Char) : List Char := escEqGtAux false l

/-! ### Sixth replace: `/.\x08/g → ''`

(`.` matches any character except a newline.)  The pending slot holds the
previous character while it may still pair with a following 0x08. -/

/-- One-pass automaton for the `.\x08` replace. -/
def bsAux (pending : Option Char) : List Char → List Char
  | [] => match pending with | some p => [p] | none => []
  | c :: r =>
    match pending with
    | none => if c = '\n' then '\n' :: bsAux none r else bsAux (some c) r
    | some p =>
      if c = '\x08' then bsAux none r
      else if c = '\n' then p :: '\n' :: bsAux none r
      else p :: bsAux (some c) r

/-- `str.replace(/.\x08/g, '')`. -/
def bsStrip (l : List Char) : List Char := bsAux none l

/-! ### Eighth replace: `/  +/g → ' '`

Replacing every run of two or more spaces by one space leaves single spaces
unchanged, so the result collapses every maximal run of spaces to one space.
The flag records whether the previous emitted character was a space of a run
being collapsed. -/

/-- One-pass automaton for the space-collapsing replace. -/
def collapseAux (prevSpace : Bool) : List Char → List Char
  | [] => []
  | c :: r =>
    if c = ' ' then
      if prevSpace then collapseAux true r else ' ' :: collapseAux true r
    else c :: collapseAux false r

/-- `str.replace(/  +/g, ' ')`. -/
def collapseSpaces (l : List Char) : List Char := collapseAux false l

/-! ### Split, trim, join -/

/-- `str.split('\n')` (never returns an empty list; `"".split` gives `[""]`). -/
def jsSplitNL : List Char → List (List Char)
  | [] => [[]]
  | c :: r =>
    if c = '\n' then [] :: jsSplitNL r
    else
      match jsSplitNL r with
      | [] => [[c]]
      | p :: ps => (c :: p) :: ps

/-- `String.prototype.trim`. -/
def jsTrim (l : List Char) : List Char :=
  ((l.dropWhile isJsSpace).reverse.dropWhile isJsSpace).reverse

/-- `arr.join('\n')`. -/
def joinNL : List Str → Str
  | [] => []
  | [p] => p
  | p :: q :: ps => p ++ '\n' :: joinNL (q :: ps)

/-- `TerminalBufferService.stripAnsiCodes`: the seven regex replaces, then
space collapsing, then split / trim each line / join. -/
def stripAnsiCodes (s : Str) : Str :=
  let s3 := escEqGtStrip (oscStrip (csiStrip s))
  let s4 := s3.filter (fun c => c ≠ '\x07')
  let s5 := s4.filter (fun c => c ≠ '\r')
  let s6 := bsStrip s5
  let s7 := s6.filter (fun c => !isBadC0 c)
  let s8 := collapseSpaces s7
  joinNL ((jsSplitNL s8).map jsTrim)

/-! ### Noise filter -/

/-- `needle` begins `hay` (helper for `startsWith` / `includes`). -/
def leadsList : List Char → List Char → Bool
  | [], _ => true
  | _ :: _, [] => false
  | a :: as, b :: bs => a = b && leadsList as bs

/-- `hay.includes(needle)`. -/
def jsIncludes (hay needle : Str) : Bool :=
  match hay with
  | [] => leadsList needle []
  | _ :: t => leadsList needle hay || jsIncludes t needle

/-- `/^\d+;/.test(line)`: one or more ASCII digits followed by a semicolon. -/
def semiAfterDigits : Str → Bool
  | [] => false
  | c :: r => if c.isDigit then semiAfterDigits r else c = ';'

/-- Test of the noise regex `/^\d+;/`. -/
def numSemiTest (l : Str) : Bool :=
  match l with
  | [] => false
  | c :: rest => c.isDigit && semiAfterDigits rest

/-- `TerminalBufferService.isNoiseLine`.  The three-character literal `âžœ`
is the mojibake prompt glyph compared verbatim in the source. -/
def isNoiseLine (l : Str) : Bool :=
  numSemiTest l
    || leadsList ("1;".data) l || leadsList ("2;".data) l || leadsList ("7;".data) l
    || l = "âžœ".data || l = "%".data || l = "$".data
    || jsIncludes l ("OSCLock=".data) || jsIncludes l ("OSCUnlock=".data)
    || jsIncludes l ("StartPrompt".data) || jsIncludes l ("EndPrompt".data)
    || jsIncludes l ("PreExec".data) || jsIncludes l ("NewCmd=".data)

/-! ### captureTerminalData: the per-chunk buffer mutation -/

/-- The lines of a raw chunk that survive the normalization pipeline and are
pushed onto the buffer (split, trim, drop empty and noise lines). -/
def surviving (data : Str) : List Str :=
  ((jsSplitNL (stripAnsiCodes data)).map jsTrim).filter
    (fun l => !l.isEmpty && !isNoiseLine l)

/-- `arr.slice(-n)`.  JavaScript evaluates `slice(-0)` as `slice(0)`, the
whole array; for `n ≥ 1` it is the last `min n arr.length` elements. -/
def jsSliceLast (n : Nat) (l : List Str) : List Str :=
  if n = 0 then l else l.drop (l.length - n)

/-- The buffer mutation of `TerminalBufferService.captureTerminalData`:
push every surviving line, then truncate with `buffer.slice(-maxBufferLines)`
whenever the length exceeds `maxBufferLines`. -/
def appendChunk (maxBufferLines : Nat) (buffer : List Str) (data : Str) :
    List Str :=
  let b := buffer ++ surviving data
  if b.length > maxBufferLines then jsSliceLast maxBufferLines b else b

/-! ### The session registry (`TerminalData`, resolution, buffer reads)

The `Map<string, TerminalData>` keyed by the session id is modelled as the
list of its values in insertion order (the service only ever inserts fresh
keys, deletes, or rewrites a value in place, so iteration order is the list
order and `has`/`get` are `find?` on the id field). -/

/-- The `TerminalData` record.  `processId` resolves asynchronously in the
source; no claim concerns it, so it stays as registered.  `createdAt` and
`lastActivity` are `Date`s, modelled by the logical clock. -/
structure TerminalData where
  id : Str
  name : Str
  processId : Option Int
  buffer : List Str
  createdAt : Nat
  lastActivity : Nat
deriving DecidableEq

/-- `String.prototype.toLowerCase` restricted to ASCII (every string the
claims exercise is ASCII; the full Unicode mapping is out of scope). -/
def jsToLower (s : Str) : Str :=
  s.map (fun c => if 'A' ≤ c && c ≤ 'Z' then Char.ofNat (c.toNat + 32) else c)

/-- The for-of loop of `getTerminal`: first value whose lowercased name
includes the lowercased query. -/
def nameScan : List TerminalData → Str → Option TerminalData
  | [], _ => none
  | t :: rest, q =>
    if jsIncludes (jsToLower t.name) q then some t else nameScan rest q

/-- `TerminalBufferService.getTerminal`: exact id match via `has`/`get`,
else first case-insensitive substring match on the display name. -/
def getTerminal (ts : List TerminalData) (nameOrId : Str) : Option TerminalData :=
  if (ts.find? (fun t => t.id = nameOrId)).isSome then
    ts.find? (fun t => t.id = nameOrId)
  else
    nameScan ts (jsToLower nameOrId)

/-- `TerminalBufferService.getTerminalBuffer`.  `lines` is the optional
`number` argument; `lines || buffer.length` makes an absent or zero count
mean the whole buffer, and `slice(Math.max(0, length - requested))` keeps
the last `requested` lines. -/
def getTerminalBuffer (ts : List TerminalData) (nameOrId : Str)
    (lines : Option Int) : Option Str :=
  match getTerminal ts nameOrId with
  | none => none
  | some t =>
    let buffer := t.buffer
    let requested : Int :=
      match lines with
      | none => (buffer.length : Int)
      | some k => if k = 0 then (buffer.length : Int) else k
    let start : Int := max 0 ((buffer.length : Int) - requested)
    some (joinNL (buffer.drop start.toNat))

/-! ### The MCP command router (`MCPServer`) -/

/-- A JSON-RPC id: a number, a string, or JSON `null` (an absent id is
`Option.none` at the request level). -/
inductive RpcId where
  | num (n : Int)
  | str (s : Str)
  | null
deriving DecidableEq

/-- A structured JSON-RPC error. -/
structure RpcError where
  code : Int
  message : Str
deriving DecidableEq

/-- Per-session summary in the `list_terminals` payload (`lastActivity` is
serialized from the logical clock). -/
structure TerminalSummary where
  id : Str
  name : Str
  processId : Option Int
  bufferLines : Nat
  lastActivity : Nat
deriving DecidableEq

/-- The structured tool result objects built by `listTerminals` and
`getTerminalOutput` (`success:false` payloads keep their error string and,
for lookup failures, the `available_terminals` list). -/
inductive ToolPayload where
  | failRequired (error : Str)
  | failNotFound (error : Str) (available_terminals : List Str)
  | okOutput (terminal : Str) (output : Str) (lines_returned : Nat)
  | okList (count : Nat) (terminals : List TerminalSummary)
deriving DecidableEq

/-- The result member of a response (the payload of `createResponse`). -/
inductive RpcResult where
  | initializeResult (protocolVersion serverName serverVersion : Str)
  | emptyResult
  | toolsListResult
  | toolContent (payload : ToolPayload)
  | resourcesEmpty
  | promptsEmpty
deriving DecidableEq

/-- An `MCPResponse` (exactly one of `result` / `error` is set). -/
structure MCPResponse where
  id : RpcId
  result : Option RpcResult
  error : Option RpcError
deriving DecidableEq

/-- Arguments of the `get_terminal_output` tool as destructured by the code
(`terminal_name` may be absent, `lines` defaults to 100). -/
structure GetOutputArgs where
  terminal_name : Option Str
  lines : Option Int
deriving DecidableEq

/-- `params` of a `tools/call` request: the destructured `name` and
`arguments` members, each possibly absent. -/
structure ToolsCallParams where
  name : Option Str
  arguments : Option GetOutputArgs
deriving DecidableEq

/-- A request as consumed by `handleRequest` (absent `id` marks a
notification). -/
structure MCPRequest where
  id : Option RpcId
  method : Str
  params : Option ToolsCallParams
deriving DecidableEq

/-- A thrown JavaScript exception, reduced to its message. -/
structure JsFault where
  message : Str
deriving DecidableEq

/-- The `TypeError` thrown by `const { name, arguments: args } = params`
when `params` is `undefined` or `null` (message text abridged). -/
def paramsDestructureFault : JsFault :=
  ⟨"Cannot destructure parameter object of undefined".data⟩

/-- The `TypeError` thrown by `const { terminal_name, lines = 100 } = args`
when `args` is `undefined` or `null` (message text abridged). -/
def argsDestructureFault : JsFault :=
  ⟨"Cannot destructure terminal_name of undefined".data⟩

/-- `MCPServer.createResponse`. -/
def createResponse (id : RpcId) (result : RpcResult) : MCPResponse :=
  ⟨id, some result, none⟩

/-- `MCPServer.createErrorResponse` (no caller passes `data`). -/
def createErrorResponse (id : RpcId) (code : Int) (message : Str) : MCPResponse :=
  ⟨id, none, some ⟨code, message⟩⟩

/-- `MCPServer.handleInitialize`. -/
def handleInitialize (id : RpcId) : MCPResponse :=
  createResponse id
    (.initializeResult ("2024-11-05".data) ("terminal-hook".data) ("1.0.0".data))

/-- `MCPServer.listTerminals` over the registry values. -/
def listTerminals (ts : List TerminalData) : ToolPayload :=
  .okList ts.length
    (ts.map (fun t =>
      { id := t.id
        name := if t.name = [] then "(unnamed)".data else t.name
        processId := t.processId
        bufferLines := t.buffer.length
        lastActivity := t.lastActivity }))

/-- Validation message for a missing `terminal_name`. -/
def requiredMsg : Str :=
  "terminal_name is required. Use list_terminals to see available terminals.".data

/-- `Terminal "<name>" not found`. -/
def notFoundMsg (q : Str) : Str :=
  "Terminal \"".data ++ q ++ "\" not found".data

/-- `MCPServer.getTerminalOutput`.  `!terminal_name` is a falsiness test, so
both an absent and an empty `terminal_name` take the validation branch. -/
def getTerminalOutput (ts : List TerminalData) (args : GetOutputArgs) :
    ToolPayload :=
  let lines : Int := args.lines.getD 100
  match args.terminal_name with
  | none => .failRequired requiredMsg
  | some q =>
    if q = [] then .failRequired requiredMsg
    else
      match getTerminal ts q with
      | none =>
        .failNotFound (notFoundMsg q)
          (ts.map (fun t => if t.name = [] then t.id else t.name))
      | some t =>
        let buffer := getTerminalBuffer ts q (some lines)
        .okOutput (if t.name = [] then t.id else t.name)
          (buffer.getD [])
          (match buffer with
           | some b => (jsSplitNL b).length
           | none => 0)

/-- `MCPServer.handleToolsCall`: the destructuring of `params` happens
before the `try` block and throws on an absent `params`; the `try` wraps the
tool switch and converts any fault into a `-32603` error response. -/
def handleToolsCall (ts : List TerminalData) (id : RpcId)
    (params : Option ToolsCallParams) : Except JsFault MCPResponse :=
  match params with
  | none => .error paramsDestructureFault
  | some p =>
    let body : Except JsFault MCPResponse :=
      if p.name = some ("list_terminals".data) then
        .ok (createResponse id (.toolContent (listTerminals ts)))
      else if p.name = some ("get_terminal_output".data) then
        match p.arguments with
        | none => .error argsDestructureFault
        | some args =>
          .ok (createResponse id (.toolContent (getTerminalOutput ts args)))
      else
        .ok (createErrorResponse id (-32601)
          ("Unknown tool: ".data ++ (p.name.getD ("undefined".data))))
    match body with
    | .ok r => .ok r
    | .error e =>
      .ok (createErrorResponse id (-32603)
        ("Tool execution error: ".data ++ e.message))

/-- `MCPServer.handleRequest`: notifications (absent id) get no response;
otherwise the method switch.  (`handleNotification` only flips a private
flag nothing reads, so it is not modelled.) -/
def handleRequest (ts : List TerminalData) (req : MCPRequest) :
    Except JsFault (Option MCPResponse) :=
  match req.id with
  | none => .ok none
  | some id =>
    if req.method = "initialize".data then .ok (some (handleInitialize id))
    else if req.method = "ping".data then .ok (some (createResponse id .emptyResult))
    else if req.method = "tools/list".data then
      .ok (some (createResponse id .toolsListResult))
    else if req.method = "tools/call".data then
      (handleToolsCall ts id req.params).map some
    else if req.method = "resources/list".data then
      .ok (some (createResponse id .resourcesEmpty))
    else if req.method = "prompts/list".data then
      .ok (some (createResponse id .promptsEmpty))
    else
      .ok (some (createErrorResponse id (-32601)
        ("Method not found: ".data ++ req.method)))

/-- The per-line socket handler of `startMCPServer` (src/extension.ts): a
response, when there is one, is written back; a fault thrown by
`handleRequest` is caught and written back as a `-32700` parse error with a
`null` id. -/
def handleLine (ts : List TerminalData) (req : MCPRequest) :
    Option MCPResponse :=
  match handleRequest ts req with
  | .ok r => r
  | .error e =>
    some ⟨RpcId.null, none, some ⟨-32700, "Parse error: ".data ++ e.message⟩⟩

/-! ### The service state machine (registration / close / data signals) -/

/-- A host terminal object: identity (the `WeakMap` key) plus its fixed
display name. -/
structure VTerminal where
  handle : Nat
  name : Str
deriving DecidableEq

/-- The mutable state of a `TerminalBufferService` instance.
`weakMap` is `terminalToIdMap` (entries are never removed — a `WeakMap`
keeps a live key's entry until the key itself is collected); `counter` is
`terminalCounter`; `clock` is logical time standing in for `Date.now`. -/
structure ServiceState where
  maxBufferLines : Nat
  terminals : List TerminalData
  weakMap : List (Nat × Str)
  counter : Nat
  clock : Nat
deriving DecidableEq

/-- `WeakMap.get` on the handle. -/
def lookupWeak (wm : List (Nat × Str)) (h : Nat) : Option Str :=
  (wm.find? (fun e => e.1 = h)).map (fun e => e.2)

/-- `TerminalBufferService.getTerminalId`: return the remembered id, or mint
`terminal-<counter>-<name>`, remember it, and bump the counter. -/
def getTerminalId (st : ServiceState) (t : VTerminal) : Str × ServiceState :=
  match lookupWeak st.weakMap t.handle with
  | some id => (id, st)
  | none =>
    let id := "terminal-".data ++ (Nat.repr st.counter).data ++ "-".data ++ t.name
    (id, { st with
             counter := st.counter + 1
             weakMap := st.weakMap ++ [(t.handle, id)] })

/-- `TerminalBufferService.registerTerminal`: create a fresh record only
when no session with that id is present.  (The source re-`set`s the same
handle/id pair in the `WeakMap`, a no-op here.) -/
def registerTerminal (st : ServiceState) (t : VTerminal) : ServiceState :=
  let p := getTerminalId st t
  let st1 := p.2
  if st1.terminals.any (fun td => td.id = p.1) then st1
  else
    { st1 with
        terminals := st1.terminals ++
          [{ id := p.1, name := t.name, processId := none, buffer := [],
             createdAt := st1.clock, lastActivity := st1.clock }] }

/-- `TerminalBufferService.unregisterTerminal`: delete the id's session (the
`WeakMap` entry survives; an unknown handle first gets an id minted, whose
deletion is then a no-op). -/
def unregisterTerminal (st : ServiceState) (t : VTerminal) : ServiceState :=
  let p := getTerminalId st t
  { p.2 with terminals := (p.2).terminals.filter (fun td => td.id ≠ p.1) }

/-- `TerminalBufferService.captureTerminalData` at the service level: drop
the event unless the handle is mapped and the session exists; otherwise
append the chunk's surviving lines (with eviction) and touch
`lastActivity`. -/
def captureTerminalData (st : ServiceState) (t : VTerminal) (data : Str) :
    ServiceState :=
  match lookupWeak st.weakMap t.handle with
  | none => st
  | some id =>
    if id = [] then st
    else if st.terminals.any (fun td => td.id = id) then
      { st with
          terminals := st.terminals.map (fun td =>
            if td.id = id then
              { td with
                  buffer := appendChunk st.maxBufferLines td.buffer data
                  lastActivity := st.clock }
            else td) }
    else st

/-- A host signal (the subscribed `onDidOpenTerminal`, `onDidCloseTerminal`
and `onDidWriteTerminalData` events). -/
inductive HostEvent where
  | opened (t : VTerminal)
  | closed (t : VTerminal)
  | dataWritten (t : VTerminal) (data : Str)
deriving DecidableEq

/-- One host signal; the logical clock advances with every signal. -/
def step (st : ServiceState) (e : HostEvent) : ServiceState :=
  let st' :=
    match e with
    | .opened t => registerTerminal st t
    | .closed t => unregisterTerminal st t
    | .dataWritten t data => captureTerminalData st t data
  { st' with clock := st'.clock + 1 }

/-- A sequence of host signals. -/
def run (st : ServiceState) (evs : List HostEvent) : ServiceState :=
  evs.foldl step st

/-- A freshly constructed service with capacity `cap`. -/
def initState (cap : Nat) : ServiceState :=
  { maxBufferLines := cap, terminals := [], weakMap := [], counter := 0,
    clock := 0 }

/-! ### Specification-side definitions (for refinement statements) -/

/-- The last `n` elements of a list (the specification's "last n lines"). -/
def lastN (n : Nat) (l : List α) : List α := l.drop (l.length - n)

/-- Session resolution as the specification words it: the session whose
identifier equals the query exactly; else the first session, in registration
order, whose display name contains the query case-insensitively; else none. -/
def resolveSpec (ts : List TerminalData) (q : Str) : Option TerminalData :=
  match ts.find? (fun t => t.id = q) with
  | some t => some t
  | none => ts.find? (fun t => jsIncludes (jsToLower t.name) (jsToLower q))

/-- Sample session: one registered `bash` terminal holding one line. -/
def sampleBash : TerminalData :=
  { id := "terminal-0-bash".data, name := "bash".data, processId := none,
    buffer := ["a".data], createdAt := 0, lastActivity := 0 }

/-- Sample session with an empty buffer. -/
def emptyZsh : TerminalData :=
  { id := "terminal-1-zsh".data, name := "zsh".data, processId := none,
    buffer := [], createdAt := 0, lastActivity := 0 }

/-- Sample host terminal. -/
def tBash : VTerminal := ⟨0, "bash".data⟩

/-! ### Helper lemmas -/

/-- The name-scanning loop is `find?` over the registration order. -/
theorem nameScan_eq_find? (ts : List TerminalData) (s : Str) :
    nameScan ts s = ts.find? (fun t => jsIncludes (jsToLower t.name) s) := by
  induction ts with
  | nil => rfl
  | cons t rest ih =>
    by_cases h : jsIncludes (jsToLower t.name) s
    · simp [nameScan, List.find?, h]
    · simp only [Bool.not_eq_true] at h
      simp [nameScan, List.find?, h, ih]

/-- If the needle occurs in `b`, it occurs in `a ++ b`. -/
theorem jsIncludes_append_of (a b n : Str) (h : jsIncludes b n = true) :
    jsIncludes (a ++ b) n = true := by
  induction a with
  | nil => simpa using h
  | cons c t ih => simp [jsIncludes, ih]

/-- Both tool branches of `handleToolsCall` produce a response carrying the
request id (the catch converts the one possible fault). -/
theorem handleToolsCall_ok (ts : List TerminalData) (i : RpcId)
    (p : ToolsCallParams) :
    ∃ r, handleToolsCall ts i (some p) = .ok r ∧ r.id = i := by
  unfold handleToolsCall
  by_cases h1 : p.name = some ("list_terminals".data)
  · exact ⟨createResponse i (.toolContent (listTerminals ts)), by simp [h1], rfl⟩
  · by_cases h2 : p.name = some ("get_terminal_output".data)
    · cases ha : p.arguments with
      | none =>
        exact ⟨createErrorResponse i (-32603)
          ("Tool execution error: ".data ++ argsDestructureFault.message),
          by simp [h1, h2, ha], rfl⟩
      | some args =>
        exact ⟨createResponse i (.toolContent (getTerminalOutput ts args)),
          by simp [h1, h2, ha], rfl⟩
    · exact ⟨createErrorResponse i (-32601)
        ("Unknown tool: ".data ++ (p.name.getD ("undefined".data))),
        by simp [h1, h2], rfl⟩

/-- Index arithmetic of `slice(Math.max(0, length - requested))`. -/
theorem sliceStart_eq (L : Nat) (k : Int) (hk : 1 ≤ k) :
    (max 0 ((L : Int) - k)).toNat = L - min k.toNat L := by
  omega

/-- Unfolding `getTerminalBuffer` on a resolved session, explicit count. -/
theorem getTerminalBuffer_resolved_some (ts : List TerminalData) (q : Str)
    (t : TerminalData) (h : getTerminal ts q = some t) (k : Int) :
    getTerminalBuffer ts q (some k) =
      some (joinNL (t.buffer.drop
        (max 0 ((t.buffer.length : Int) -
          (if k = 0 then (t.buffer.length : Int) else k))).toNat)) := by
  simp only [getTerminalBuffer, h]

/-- Unfolding `getTerminalBuffer` on a resolved session, absent count. -/
theorem getTerminalBuffer_resolved_none (ts : List TerminalData) (q : Str)
    (t : TerminalData) (h : getTerminal ts q = some t) :
    getTerminalBuffer ts q none = some (joinNL t.buffer) := by
  simp only [getTerminalBuffer, h]
  norm_num

/-- Splitting a newline-free string returns it as the only piece. -/
theorem jsSplitNL_no_nl (l : Str) (h : '\n' ∉ l) : jsSplitNL l = [l] := by
  induction l with
  | nil => rfl
  | cons c r ih =>
    have hc : ¬(c = '\n') := by rintro rfl; exact h (List.mem_cons_self ..)
    have hr : '\n' ∉ r := fun hm => h (List.mem_cons_of_mem _ hm)
    simp [jsSplitNL, hc, ih hr]

/-- Splitting a string with an explicit first newline. -/
theorem jsSplitNL_append_nl (p rest : Str) (h : '\n' ∉ p) :
    jsSplitNL (p ++ '\n' :: rest) = p :: jsSplitNL rest := by
  induction p with
  | nil => simp [jsSplitNL]
  | cons c r ih =>
    have hc : ¬(c = '\n') := by rintro rfl; exact h (List.mem_cons_self ..)
    have hr : '\n' ∉ r := fun hm => h (List.mem_cons_of_mem _ hm)
    simp only [List.cons_append, jsSplitNL, hc, if_false, List.append_eq]
    rw [ih hr]

/-- `split('\n')` inverts `join('\n')` on nonempty lists of newline-free
pieces. -/
theorem jsSplitNL_joinNL (ps : List Str) (hne : ps ≠ [])
    (h : ∀ p ∈ ps, '\n' ∉ p) : jsSplitNL (joinNL ps) = ps := by
  induction ps with
  | nil => cases hne rfl
  | cons p qs ih =>
    cases qs with
    | nil => exact jsSplitNL_no_nl p (h p (List.mem_cons_self ..))
    | cons q rs =>
      rw [joinNL, jsSplitNL_append_nl p _ (h p (List.mem_cons_self ..)),
        ih (by simp) (fun x hx => h x (List.mem_cons_of_mem _ hx))]

/-- Requested-count arithmetic of the `get_terminal_output` success path:
how many buffer lines the call selects. -/
def selCount (lines : Option Int) (L : Nat) : Nat :=
  match lines with
  | none => min 100 L
  | some k => if k = 0 then L else min k.toNat L

/-- `lastN` through `reverse` and `take`. -/
theorem lastN_eq_reverse_take (N : Nat) (l : List α) :
    lastN N l = (l.reverse.take N).reverse := by
  rw [List.take_reverse, List.reverse_reverse]
  rfl

/-- Keeping the last `N` of a list that was already truncated to its last
`N` elements before an append truncates exactly as the untruncated list
would. -/
theorem lastN_append_absorb (N : Nat) (p q : List α) :
    lastN N (lastN N p ++ q) = lastN N (p ++ q) := by
  rw [lastN_eq_reverse_take N (lastN N p ++ q), lastN_eq_reverse_take N (p ++ q),
    lastN_eq_reverse_take N p]
  congr 1
  rw [List.reverse_append, List.reverse_reverse, List.reverse_append]
  rw [List.take_append_eq_append_take, List.take_append_eq_append_take,
    List.take_take]
  congr 2
  omega

/-- For `N ≥ 1`, one `captureTerminalData` buffer update keeps exactly the
last `N` of the old buffer followed by the chunk's surviving lines. -/
theorem appendChunk_eq_lastN (N : Nat) (hN : 1 ≤ N) (b : List Str) (s : Str) :
    appendChunk N b s = lastN N (b ++ surviving s) := by
  show (if (b ++ surviving s).length > N then jsSliceLast N (b ++ surviving s)
        else (b ++ surviving s)) = lastN N (b ++ surviving s)
  by_cases hlen : (b ++ surviving s).length > N
  · rw [if_pos hlen]
    unfold jsSliceLast
    rw [if_neg (by omega)]
    rfl
  · rw [if_neg hlen]
    unfold lastN
    rw [show (b ++ surviving s).length - N = 0 by omega, List.drop_zero]

/-- Folding `appendChunk` from a truncated state. -/
theorem foldl_appendChunk (N : Nat) (hN : 1 ≤ N) (chunks : List Str)
    (p : List Str) :
    chunks.foldl (appendChunk N) (lastN N p) =
      lastN N (p ++ chunks.flatMap surviving) := by
  induction chunks generalizing p with
  | nil => simp
  | cons c cs ih =>
    rw [List.foldl_cons, appendChunk_eq_lastN N hN, lastN_append_absorb,
      ih (p ++ surviving c), List.flatMap_cons, List.append_assoc]

/-! ### Claim C1 -/

/-- Claim C1, counterexample: with configured capacity `N = 0`, appending a
chunk with one surviving line leaves a buffer of length `1`: the truncation
`buffer.slice(-0)` is `slice(0)`, the whole array, so the buffer exceeds the
capacity and is not the last `0` lines. -/
theorem c1_counterexample :
    (List.foldl (appendChunk 0) [] [("a\n".data)]).length = 1 ∧
    List.foldl (appendChunk 0) [] [("a\n".data)] ≠
      lastN 0 ([("a\n".data)].flatMap surviving) := by
  decide

/-- Claim C1, amended: for every configured capacity `N ≥ 1` and every
sequence of appended chunks, the session's buffer equals exactly the last
`N` of the surviving lines in their original relative order (in particular
eviction is strictly oldest-first), and its length never exceeds `N`.  For
`N = 0` the `slice(-0)` quirk violates the bound (see the
counterexample). -/
theorem c1_buffer_is_lastN (N : Nat) (hN : 1 ≤ N) (chunks : List Str) :
    chunks.foldl (appendChunk N) [] = lastN N (chunks.flatMap surviving) ∧
    (chunks.foldl (appendChunk N) []).length ≤ N := by
  have h0 : ([] : List Str) = lastN N [] := by simp [lastN]
  have hfold := foldl_appendChunk N hN chunks []
  rw [List.nil_append] at hfold
  rw [h0, hfold]
  refine ⟨rfl, ?_⟩
  simp only [lastN, List.length_drop]
  omega

/-- Claim C1, witness: the specification's example — capacity 5, lines
`L0 … L9` appended — leaves exactly `[L5, …, L9]`. -/
theorem c1_buffer_is_lastN_witness :
    1 ≤ 5 ∧
    ((List.foldl (appendChunk 5) []
        [("L0\nL1\nL2\nL3\nL4\nL5\nL6\nL7\nL8\nL9\n".data)] =
      lastN 5 ([("L0\nL1\nL2\nL3\nL4\nL5\nL6\nL7\nL8\nL9\n".data)].flatMap
        surviving)) ∧
     (List.foldl (appendChunk 5) []
        [("L0\nL1\nL2\nL3\nL4\nL5\nL6\nL7\nL8\nL9\n".data)]).length ≤ 5) :=
  ⟨by decide, c1_buffer_is_lastN 5 (by decide) _⟩

/-! ### Claim C3 -/

/-- Claim C3: for every query string, `getTerminal` first returns the session
whose identifier equals the query exactly; otherwise the first session, in
registration order, whose display name contains the query
case-insensitively; otherwise none.  Confirmed as a refinement of the
specification-side `resolveSpec`. -/
theorem c3_getTerminal_resolution (ts : List TerminalData) (q : Str) :
    getTerminal ts q = resolveSpec ts q := by
  unfold getTerminal resolveSpec
  rw [nameScan_eq_find?]
  cases h : ts.find? (fun t => t.id = q) <;> simp [h]

/-! ### Claim C4 -/

/-- Claim C4, counterexample: for a resolved session with a one-line buffer
and requested count `k = 0`, `getTerminalBuffer` returns the whole buffer
(`0` is falsy, so `lines || buffer.length` requests everything), not the
last `min(0,1) = 0` lines that the claim demands. -/
theorem c4_counterexample :
    getTerminalBuffer [sampleBash] ("bash".data) (some 0) = some ("a".data) ∧
    some ("a".data) ≠ some (joinNL (lastN 0 sampleBash.buffer)) := by
  decide

/-- Claim C4, amended: when the query resolves to no session the result is
`none`; on a resolved session with buffer length `L`, a requested count
`k ≥ 1` returns the last `min k L` lines joined with newline, while an
absent count — or the count `0`, which the source treats as absent — returns
all `L` lines. -/
theorem c4_lastLines (ts : List TerminalData) (q : Str) :
    (∀ k, getTerminal ts q = none → getTerminalBuffer ts q k = none) ∧
    (∀ t, getTerminal ts q = some t →
      (∀ k : Int, 1 ≤ k →
        getTerminalBuffer ts q (some k) =
          some (joinNL (lastN (min k.toNat t.buffer.length) t.buffer))) ∧
      getTerminalBuffer ts q none = some (joinNL t.buffer) ∧
      getTerminalBuffer ts q (some 0) = some (joinNL t.buffer)) := by
  constructor
  · intro k h
    simp [getTerminalBuffer, h]
  · intro t h
    refine ⟨fun k hk => ?_, ?_, ?_⟩
    · rw [getTerminalBuffer_resolved_some ts q t h k]
      have hk0 : ¬(k = 0) := by omega
      rw [if_neg hk0, sliceStart_eq _ _ hk]
      rfl
    · exact getTerminalBuffer_resolved_none ts q t h
    · rw [getTerminalBuffer_resolved_some ts q t h 0]
      norm_num

/-- Claim C4, witness at a concrete session and `k = 1`. -/
theorem c4_lastLines_witness :
    getTerminal [sampleBash] ("bash".data) = some sampleBash ∧
    getTerminalBuffer [sampleBash] ("bash".data) (some 1) =
      some (joinNL (lastN (min (Int.toNat 1) sampleBash.buffer.length)
        sampleBash.buffer)) :=
  ⟨by decide,
   ((c4_lastLines [sampleBash] ("bash".data)).2 sampleBash (by decide)).1 1
     (by decide)⟩

/-! ### Claim C5 -/

/-- Claim C5, counterexample: a session with an empty buffer yields
`lines_returned = 1`, not the zero lines the claim demands — the success
path computes `''.split('\n').length = 1`. -/
theorem c5_counterexample :
    getTerminalOutput [emptyZsh] ⟨some ("zsh".data), none⟩ =
      ToolPayload.okOutput ("zsh".data) [] 1 ∧
    getTerminalOutput [emptyZsh] ⟨some ("zsh".data), none⟩ ≠
      ToolPayload.okOutput ("zsh".data) [] 0 := by
  decide

/-- Claim C5, amended: on every successful `get_terminal_output` call whose
resolved session has a nonempty buffer of newline-free lines (and a
requested count that is positive, zero, or absent), `lines_returned` equals
the number of buffer lines contained in the returned output text; an empty
buffer instead yields `lines_returned = 1`, the split of the empty string
(see the counterexample). -/
theorem c5_lines_returned (ts : List TerminalData) (q : Str) (t : TerminalData)
    (ok : Option Int) (hq : q ≠ []) (h : getTerminal ts q = some t)
    (hnl : ∀ l ∈ t.buffer, '\n' ∉ l) (hne : t.buffer ≠ [])
    (hk : ∀ k, ok = some k → 1 ≤ k ∨ k = 0) :
    getTerminalOutput ts ⟨some q, ok⟩ =
      ToolPayload.okOutput (if t.name = [] then t.id else t.name)
        (joinNL (lastN (selCount ok t.buffer.length) t.buffer))
        (lastN (selCount ok t.buffer.length) t.buffer).length ∧
    1 ≤ (lastN (selCount ok t.buffer.length) t.buffer).length := by
  have hL : 1 ≤ t.buffer.length := List.length_pos.mpr hne
  have hm : 1 ≤ selCount ok t.buffer.length := by
    cases ok with
    | none => simp only [selCount]; omega
    | some k =>
      rcases hk k rfl with h1 | h0
      · have hk0 : ¬(k = 0) := by omega
        simp only [selCount, hk0, if_false]
        omega
      · subst h0
        simp only [selCount, if_pos]
        omega
  have hsellen : 1 ≤ (lastN (selCount ok t.buffer.length) t.buffer).length := by
    simp only [lastN, List.length_drop]
    omega
  have hselne : lastN (selCount ok t.buffer.length) t.buffer ≠ [] := by
    intro hnil
    rw [hnil] at hsellen
    simp at hsellen
  have hselnl : ∀ l ∈ lastN (selCount ok t.buffer.length) t.buffer, '\n' ∉ l :=
    fun l hl => hnl l (List.drop_subset _ _ hl)
  have hbuf : getTerminalBuffer ts q (some (ok.getD 100)) =
      some (joinNL (lastN (selCount ok t.buffer.length) t.buffer)) := by
    rw [getTerminalBuffer_resolved_some ts q t h (ok.getD 100)]
    have hidx : (max 0 ((t.buffer.length : Int) -
        (if (ok.getD 100 : Int) = 0 then (t.buffer.length : Int)
         else (ok.getD 100 : Int)))).toNat =
        t.buffer.length - selCount ok t.buffer.length := by
      cases ok with
      | none =>
        simp only [Option.getD, selCount]
        rw [if_neg (by norm_num : ¬((100 : Int) = 0))]
        omega
      | some k =>
        rcases hk k rfl with h1 | h0
        · have hk0 : ¬(k = 0) := by omega
          simp only [Option.getD, selCount, if_neg hk0]
          omega
        · subst h0
          simp only [Option.getD, selCount]
          simp
    rw [hidx]
    rfl
  constructor
  · have hq' : ¬(q = []) := hq
    simp only [getTerminalOutput, hq', if_false, h, hbuf]
    rw [jsSplitNL_joinNL _ hselne hselnl]
    rfl
  · omega

/-- Claim C5, witness at a concrete one-line session and `k = 1`. -/
theorem c5_lines_returned_witness :
    getTerminalOutput [sampleBash] ⟨some ("bash".data), some 1⟩ =
      ToolPayload.okOutput
        (if sampleBash.name = [] then sampleBash.id else sampleBash.name)
        (joinNL (lastN (selCount (some 1) sampleBash.buffer.length)
          sampleBash.buffer))
        (lastN (selCount (some 1) sampleBash.buffer.length)
          sampleBash.buffer).length ∧
    1 ≤ (lastN (selCount (some 1) sampleBash.buffer.length)
      sampleBash.buffer).length :=
  c5_lines_returned [sampleBash] ("bash".data) sampleBash (some 1)
    (by decide) (by decide) (by decide) (by decide)
    (by intro k hk; injection hk with hk; exact Or.inl (by omega))

/-! ### Claim C8 -/

/-- Claim C8, counterexample: on an empty registry the empty query is falsy,
so it takes the validation branch; the failure carries the required-argument
message, which does not mention "not found" as the claim demands for any
query. -/
theorem c8_counterexample :
    getTerminalOutput [] ⟨some [], none⟩ = ToolPayload.failRequired requiredMsg ∧
    jsIncludes requiredMsg ("not found".data) = false := by
  decide

/-- Claim C8, amended: a missing `terminal_name` yields a structured
validation failure mentioning that it is required; a nonempty
`terminal_name` resolving to no session yields a structured failure whose
`available_terminals` lists every registered session by name or id and whose
error mentions "not found"; on an empty registry every nonempty query takes
that branch with the empty list.  (An empty-string `terminal_name` is falsy
and takes the validation branch instead — see the counterexample.) -/
theorem c8_error_payloads (ts : List TerminalData) (args : GetOutputArgs)
    (q : Str) :
    (args.terminal_name = none →
      getTerminalOutput ts args = ToolPayload.failRequired requiredMsg ∧
      jsIncludes requiredMsg ("required".data) = true) ∧
    (args.terminal_name = some q → q ≠ [] → getTerminal ts q = none →
      getTerminalOutput ts args =
        ToolPayload.failNotFound (notFoundMsg q)
          (ts.map (fun t => if t.name = [] then t.id else t.name)) ∧
      jsIncludes (notFoundMsg q) ("not found".data) = true) ∧
    (ts = [] → args.terminal_name = some q → q ≠ [] →
      getTerminalOutput ts args = ToolPayload.failNotFound (notFoundMsg q) []) := by
  have notFound_mentions : ∀ q' : Str,
      jsIncludes (notFoundMsg q') ("not found".data) = true := by
    intro q'
    unfold notFoundMsg
    exact jsIncludes_append_of ("Terminal \"".data)
      (q' ++ "\" not found".data) ("not found".data)
      (jsIncludes_append_of q' ("\" not found".data) ("not found".data)
        (by decide))
  refine ⟨fun h => ⟨?_, by decide⟩, fun h hq hn => ⟨?_, notFound_mentions q⟩,
    fun hts h hq => ?_⟩
  · simp only [getTerminalOutput, h]
  · have hq' : ¬(q = []) := hq
    simp only [getTerminalOutput, h, hq', if_false, hn]
  · subst hts
    have hn : getTerminal [] q = none := rfl
    have hq' : ¬(q = []) := hq
    simp only [getTerminalOutput, h, hq', if_false, hn, List.map_nil]

/-- Claim C8, witness: one registered session, an unresolvable query. -/
theorem c8_error_payloads_witness :
    getTerminalOutput [sampleBash] ⟨some ("nope".data), none⟩ =
      ToolPayload.failNotFound (notFoundMsg ("nope".data))
        ([sampleBash].map (fun t => if t.name = [] then t.id else t.name)) ∧
    jsIncludes (notFoundMsg ("nope".data)) ("not found".data) = true :=
  (c8_error_payloads [sampleBash] ⟨some ("nope".data), none⟩ ("nope".data)).2.1
    rfl (by decide) (by decide)

/-! ### Claim C2 -/

/-- Claim C2, counterexample: a `tools/call` request with absent `params`
makes `handleRequest` throw — the destructuring of `params` happens before
the `try` block — so the router does let an exception escape to its
caller. -/
theorem c2_counterexample :
    handleRequest [] ⟨some (.num 1), "tools/call".data, none⟩ =
      .error paramsDestructureFault := by
  rfl

/-- Claim C2, amended: for every `tools/call` request whose `params` member
is present, `handleRequest` returns a response and never throws: any fault
raised while executing the operation (such as the destructuring fault for
absent `arguments` of `get_terminal_output`) is caught and converted into a
`-32603` error response carrying the fault's message.  A request with absent
`params` instead throws (see the counterexample). -/
theorem c2_router_catches (ts : List TerminalData) (req : MCPRequest)
    (i : RpcId) (p : ToolsCallParams) (hid : req.id = some i)
    (hm : req.method = "tools/call".data) (hp : req.params = some p) :
    (∃ r, handleRequest ts req = .ok (some r)) ∧
    handleToolsCall ts i (some ⟨some ("get_terminal_output".data), none⟩) =
      .ok (createErrorResponse i (-32603)
        ("Tool execution error: ".data ++ argsDestructureFault.message)) := by
  obtain ⟨oid, method, pars⟩ := req
  simp only at hid hm hp
  subst hid; subst hm; subst hp
  constructor
  · obtain ⟨r, hr, -⟩ := handleToolsCall_ok ts i p
    refine ⟨r, ?_⟩
    have hreq : handleRequest ts ⟨some i, "tools/call".data, some p⟩ =
        (handleToolsCall ts i (some p)).map some := rfl
    rw [hreq, hr]
    rfl
  · rfl

/-- Claim C2, witness at a concrete request. -/
theorem c2_router_catches_witness :
    (∃ r, handleRequest []
        ⟨some (.num 5), "tools/call".data,
          some ⟨some ("list_terminals".data), none⟩⟩ = .ok (some r)) ∧
    handleToolsCall [] (.num 5)
        (some ⟨some ("get_terminal_output".data), none⟩) =
      .ok (createErrorResponse (.num 5) (-32603)
        ("Tool execution error: ".data ++ argsDestructureFault.message)) :=
  c2_router_catches [] _ (.num 5) ⟨some ("list_terminals".data), none⟩
    rfl rfl rfl

/-! ### Character-subset lemmas for the normalization pipeline -/

/-- `Char.toNat` determines the character. -/
theorem char_eq_of_toNat (c d : Char) (h : c.toNat = d.toNat) : c = d :=
  Char.eq_of_val_eq (UInt32.ext h)

/-- Every character the CSI automaton emits comes from its input or its
pending partial match. -/
theorem csiRun_subset (l : List Char) : ∀ (m : CsiMode) (c : Char),
    c ∈ csiRun m l → c ∈ l ∨ c ∈ csiFlush m := by
  induction l with
  | nil => intro m c hc; exact Or.inr hc
  | cons x r ih =>
    intro m c hc
    cases m with
    | top =>
      simp only [csiRun] at hc
      by_cases hx : x = esc
      · rw [if_pos hx] at hc
        rcases ih .afterEsc c hc with h | h
        · exact Or.inl (List.mem_cons_of_mem _ h)
        · simp only [csiFlush, List.mem_singleton] at h
          exact Or.inl (by rw [h, ← hx]; exact List.mem_cons_self ..)
      · rw [if_neg hx] at hc
        rcases List.mem_cons.1 hc with h | h
        · exact Or.inl (h ▸ List.mem_cons_self ..)
        · rcases ih .top c h with h' | h'
          · exact Or.inl (List.mem_cons_of_mem _ h')
          · simp [csiFlush] at h'
    | afterEsc =>
      simp only [csiRun] at hc
      by_cases h1 : isFe x = true
      · rw [if_pos h1] at hc
        rcases ih .top c hc with h | h
        · exact Or.inl (List.mem_cons_of_mem _ h)
        · simp [csiFlush] at h
      · rw [if_neg h1] at hc
        by_cases h2 : x = '['
        · rw [if_pos h2] at hc
          rcases ih (.params []) c hc with h | h
          · exact Or.inl (List.mem_cons_of_mem _ h)
          · simp only [csiFlush, List.reverse_nil] at h
            rcases List.mem_cons.1 h with h' | h'
            · exact Or.inr (by simp [csiFlush, h'])
            · simp only [List.mem_singleton] at h'
              exact Or.inl (by rw [h', ← h2]; exact List.mem_cons_self ..)
        · rw [if_neg h2] at hc
          by_cases h3 : x = esc
          · rw [if_pos h3] at hc
            rcases List.mem_cons.1 hc with h | h
            · exact Or.inr (by simp [csiFlush, h])
            · rcases ih .afterEsc c h with h' | h'
              · exact Or.inl (List.mem_cons_of_mem _ h')
              · exact Or.inr h'
          · rw [if_neg h3] at hc
            rcases List.mem_cons.1 hc with h | h
            · exact Or.inr (by simp [csiFlush, h])
            · rcases List.mem_cons.1 h with h' | h'
              · exact Or.inl (h' ▸ List.mem_cons_self ..)
              · rcases ih .top c h' with h'' | h''
                · exact Or.inl (List.mem_cons_of_mem _ h'')
                · simp [csiFlush] at h''
    | params seen =>
      simp only [csiRun] at hc
      by_cases h1 : isParamByte x = true
      · rw [if_pos h1] at hc
        rcases ih (.params (x :: seen)) c hc with h | h
        · exact Or.inl (List.mem_cons_of_mem _ h)
        · simp only [csiFlush, List.reverse_cons, List.mem_cons,
            List.mem_append, List.mem_singleton, List.mem_reverse,
            List.not_mem_nil, or_false] at h ⊢
          tauto
      · rw [if_neg h1] at hc
        by_cases h2 : isInterByte x = true
        · rw [if_pos h2] at hc
          rcases ih (.inters (x :: seen)) c hc with h | h
          · exact Or.inl (List.mem_cons_of_mem _ h)
          · simp only [csiFlush, List.reverse_cons, List.mem_cons,
              List.mem_append, List.mem_singleton, List.mem_reverse,
              List.not_mem_nil, or_false] at h ⊢
            tauto
        · rw [if_neg h2] at hc
          by_cases h3 : isFinalByte x = true
          · rw [if_pos h3] at hc
            rcases ih .top c hc with h | h
            · exact Or.inl (List.mem_cons_of_mem _ h)
            · simp [csiFlush] at h
          · rw [if_neg h3] at hc
            by_cases h4 : x = esc
            · rw [if_pos h4] at hc
              rcases List.mem_append.1 hc with h | h
              · exact Or.inr h
              · rcases ih .afterEsc c h with h' | h'
                · exact Or.inl (List.mem_cons_of_mem _ h')
                · simp only [csiFlush, List.mem_singleton] at h'
                  exact Or.inr (by simp [csiFlush, h'])
            · rw [if_neg h4] at hc
              rcases List.mem_append.1 hc with h | h
              · exact Or.inr h
              · rcases List.mem_cons.1 h with h' | h'
                · exact Or.inl (h' ▸ List.mem_cons_self ..)
                · rcases ih .top c h' with h'' | h''
                  · exact Or.inl (List.mem_cons_of_mem _ h'')
                  · simp [csiFlush] at h''
    | inters seen =>
      simp only [csiRun] at hc
      by_cases h2 : isInterByte x = true
      · rw [if_pos h2] at hc
        rcases ih (.inters (x :: seen)) c hc with h | h
        · exact Or.inl (List.mem_cons_of_mem _ h)
        · simp only [csiFlush, List.reverse_cons, List.mem_cons,
            List.mem_append, List.mem_singleton, List.mem_reverse,
            List.not_mem_nil, or_false] at h ⊢
          tauto
      · rw [if_neg h2] at hc
        by_cases h3 : isFinalByte x = true
        · rw [if_pos h3] at hc
          rcases ih .top c hc with h | h
          · exact Or.inl (List.mem_cons_of_mem _ h)
          · simp [csiFlush] at h
        · rw [if_neg h3] at hc
          by_cases h4 : x = esc
          · rw [if_pos h4] at hc
            rcases List.mem_append.1 hc with h | h
            · exact Or.inr h
            · rcases ih .afterEsc c h with h' | h'
              · exact Or.inl (List.mem_cons_of_mem _ h')
              · simp only [csiFlush, List.mem_singleton] at h'
                exact Or.inr (by simp [csiFlush, h'])
          · rw [if_neg h4] at hc
            rcases List.mem_append.1 hc with h | h
            · exact Or.inr h
            · rcases List.mem_cons.1 h with h' | h'
              · exact Or.inl (h' ▸ List.mem_cons_self ..)
              · rcases ih .top c h' with h'' | h''
                · exact Or.inl (List.mem_cons_of_mem _ h'')
                · simp [csiFlush] at h''

/-- `csiStrip` only deletes characters. -/
theorem csiStrip_subset (l : List Char) (c : Char) (hc : c ∈ csiStrip l) :
    c ∈ l := by
  rcases csiRun_subset l .top c hc with h | h
  · exact h
  · simp [csiFlush] at h

/-- Every character the OSC automaton emits comes from its input or its
pending partial match. -/
theorem oscRun_subset (l : List Char) : ∀ (m : OscMode) (c : Char),
    c ∈ oscRun m l → c ∈ l ∨ c ∈ oscFlush m := by
  induction l with
  | nil => intro m c hc; exact Or.inr hc
  | cons x r ih =>
    intro m c hc
    cases m with
    | top =>
      simp only [oscRun] at hc
      by_cases hx : x = esc
      · rw [if_pos hx] at hc
        rcases ih .afterEsc c hc with h | h
        · exact Or.inl (List.mem_cons_of_mem _ h)
        · simp only [oscFlush, List.mem_singleton] at h
          exact Or.inl (by rw [h, ← hx]; exact List.mem_cons_self ..)
      · rw [if_neg hx] at hc
        rcases List.mem_cons.1 hc with h | h
        · exact Or.inl (h ▸ List.mem_cons_self ..)
        · rcases ih .top c h with h' | h'
          · exact Or.inl (List.mem_cons_of_mem _ h')
          · simp [oscFlush] at h'
    | afterEsc =>
      simp only [oscRun] at hc
      by_cases h1 : x = ']'
      · rw [if_pos h1] at hc
        rcases ih (.body []) c hc with h | h
        · exact Or.inl (List.mem_cons_of_mem _ h)
        · simp only [oscFlush, List.reverse_nil, List.mem_cons,
            List.not_mem_nil, or_false, List.mem_singleton] at h ⊢
          subst h1
          tauto
      · rw [if_neg h1] at hc
        by_cases h2 : x = esc
        · rw [if_pos h2] at hc
          rcases List.mem_cons.1 hc with h | h
          · exact Or.inr (by simp [oscFlush, h])
          · rcases ih .afterEsc c h with h' | h'
            · exact Or.inl (List.mem_cons_of_mem _ h')
            · exact Or.inr h'
        · rw [if_neg h2] at hc
          rcases List.mem_cons.1 hc with h | h
          · exact Or.inr (by simp [oscFlush, h])
          · rcases List.mem_cons.1 h with h' | h'
            · exact Or.inl (h' ▸ List.mem_cons_self ..)
            · rcases ih .top c h' with h'' | h''
              · exact Or.inl (List.mem_cons_of_mem _ h'')
              · simp [oscFlush] at h''
    | body seen =>
      simp only [oscRun] at hc
      by_cases h1 : x = '\x07'
      · rw [if_pos h1] at hc
        rcases ih .top c hc with h | h
        · exact Or.inl (List.mem_cons_of_mem _ h)
        · simp [oscFlush] at h
      · rw [if_neg h1] at hc
        by_cases h2 : x = esc
        · rw [if_pos h2] at hc
          rcases ih (.sawEsc2 seen) c hc with h | h
          · exact Or.inl (List.mem_cons_of_mem _ h)
          · simp only [oscFlush, List.mem_append, List.mem_cons,
              List.mem_singleton, List.not_mem_nil, or_false,
              List.mem_reverse] at h ⊢
            tauto
        · rw [if_neg h2] at hc
          rcases ih (.body (x :: seen)) c hc with h | h
          · exact Or.inl (List.mem_cons_of_mem _ h)
          · simp only [oscFlush, List.reverse_cons, List.mem_cons,
              List.mem_append, List.mem_singleton, List.mem_reverse,
              List.not_mem_nil, or_false] at h ⊢
            tauto
    | sawEsc2 seen =>
      simp only [oscRun] at hc
      by_cases h1 : x = '\\'
      · rw [if_pos h1] at hc
        rcases ih .top c hc with h | h
        · exact Or.inl (List.mem_cons_of_mem _ h)
        · simp [oscFlush] at h
      · rw [if_neg h1] at hc
        by_cases h2 : x = ']'
        · rw [if_pos h2] at hc
          rcases List.mem_append.1 hc with h | h
          · simp only [List.mem_cons, List.mem_reverse] at h
            simp only [oscFlush, List.mem_append, List.mem_cons,
              List.mem_singleton, List.mem_reverse, List.not_mem_nil,
              or_false]
            tauto
          · rcases ih (.body []) c h with h' | h'
            · exact Or.inl (List.mem_cons_of_mem _ h')
            · simp only [oscFlush, List.reverse_nil, List.mem_cons,
                List.not_mem_nil, or_false, List.mem_singleton] at h'
              rcases h' with h' | h'
              · exact Or.inr (by simp [oscFlush, h'])
              · refine Or.inl ?_
                rw [show c = x from h'.trans h2.symm]
                exact List.mem_cons_self ..
        · rw [if_neg h2] at hc
          by_cases h3 : x = esc
          · rw [if_pos h3] at hc
            rcases List.mem_append.1 hc with h | h
            · simp only [List.mem_cons, List.mem_reverse] at h
              simp only [oscFlush, List.mem_append, List.mem_cons,
                List.mem_singleton, List.mem_reverse, List.not_mem_nil,
                or_false]
              tauto
            · rcases List.mem_cons.1 h with h' | h'
              · exact Or.inr (by simp [oscFlush, h'])
              · rcases ih .afterEsc c h' with h'' | h''
                · exact Or.inl (List.mem_cons_of_mem _ h'')
                · simp only [oscFlush, List.mem_singleton] at h''
                  exact Or.inr (by simp [oscFlush, h''])
          · rw [if_neg h3] at hc
            rcases List.mem_append.1 hc with h | h
            · simp only [List.mem_cons, List.mem_reverse] at h
              simp only [oscFlush, List.mem_append, List.mem_cons,
                List.mem_singleton, List.mem_reverse, List.not_mem_nil,
                or_false]
              tauto
            · rcases List.mem_cons.1 h with h' | h'
              · exact Or.inr (by simp [oscFlush, h'])
              · rcases List.mem_cons.1 h' with h'' | h''
                · exact Or.inl (h'' ▸ List.mem_cons_self ..)
                · rcases ih .top c h'' with h3' | h3'
                  · exact Or.inl (List.mem_cons_of_mem _ h3')
                  · simp [oscFlush] at h3'

/-- `oscStrip` only deletes characters. -/
theorem oscStrip_subset (l : List Char) (c : Char) (hc : c ∈ oscStrip l) :
    c ∈ l := by
  rcases oscRun_subset l .top c hc with h | h
  · exact h
  · simp [oscFlush] at h

/-- The two-byte-escape automaton emits only input characters or a pending
escape byte. -/
theorem escEqGtAux_subset (l : List Char) : ∀ (b : Bool) (c : Char),
    c ∈ escEqGtAux b l → c ∈ l ∨ (b = true ∧ c = esc) := by
  induction l with
  | nil =>
    intro b c hc
    cases b with
    | false => simp [escEqGtAux] at hc
    | true =>
      simp [escEqGtAux] at hc
      exact Or.inr ⟨rfl, hc⟩
  | cons x r ih =>
    intro b c hc
    cases b with
    | false =>
      simp only [escEqGtAux] at hc
      rw [if_neg (by simp)] at hc
      by_cases hx : x = esc
      · rw [if_pos hx] at hc
        rcases ih true c hc with h | h
        · exact Or.inl (List.mem_cons_of_mem _ h)
        · exact Or.inl (by rw [h.2, ← hx]; exact List.mem_cons_self ..)
      · rw [if_neg hx] at hc
        rcases List.mem_cons.1 hc with h | h
        · exact Or.inl (h ▸ List.mem_cons_self ..)
        · rcases ih false c h with h' | h'
          · exact Or.inl (List.mem_cons_of_mem _ h')
          · cases h'.1
    | true =>
      simp only [escEqGtAux] at hc
      rw [if_pos trivial] at hc
      by_cases h1 : x = '=' || x = '>'
      · rw [if_pos h1] at hc
        rcases ih false c hc with h | h
        · exact Or.inl (List.mem_cons_of_mem _ h)
        · cases h.1
      · rw [if_neg h1] at hc
        by_cases h2 : x = esc
        · rw [if_pos h2] at hc
          rcases List.mem_cons.1 hc with h | h
          · exact Or.inr ⟨rfl, h⟩
          · rcases ih true c h with h' | h'
            · exact Or.inl (List.mem_cons_of_mem _ h')
            · exact Or.inr h'
        · rw [if_neg h2] at hc
          rcases List.mem_cons.1 hc with h | h
          · exact Or.inr ⟨rfl, h⟩
          · rcases List.mem_cons.1 h with h' | h'
            · exact Or.inl (h' ▸ List.mem_cons_self ..)
            · rcases ih false c h' with h'' | h''
              · exact Or.inl (List.mem_cons_of_mem _ h'')
              · cases h''.1

/-- `escEqGtStrip` only deletes characters. -/
theorem escEqGtStrip_subset (l : List Char) (c : Char)
    (hc : c ∈ escEqGtStrip l) : c ∈ l := by
  rcases escEqGtAux_subset l false c hc with h | h
  · exact h
  · cases h.1

/-- The backspace automaton emits only input characters or its pending
character. -/
theorem bsAux_subset (l : List Char) : ∀ (p : Option Char) (c : Char),
    c ∈ bsAux p l → c ∈ l ∨ p = some c := by
  induction l with
  | nil =>
    intro p c hc
    cases p with
    | none => simp [bsAux] at hc
    | some a =>
      simp only [bsAux, List.mem_singleton] at hc
      exact Or.inr (by rw [hc])
  | cons x r ih =>
    intro p c hc
    cases p with
    | none =>
      simp only [bsAux] at hc
      by_cases hx : x = '\n'
      · rw [if_pos hx] at hc
        rcases List.mem_cons.1 hc with h | h
        · exact Or.inl (by rw [h, ← hx]; exact List.mem_cons_self ..)
        · rcases ih none c h with h' | h'
          · exact Or.inl (List.mem_cons_of_mem _ h')
          · cases h'
      · rw [if_neg hx] at hc
        rcases ih (some x) c hc with h | h
        · exact Or.inl (List.mem_cons_of_mem _ h)
        · exact Or.inl (by cases h; exact List.mem_cons_self ..)
    | some a =>
      simp only [bsAux] at hc
      by_cases h1 : x = '\x08'
      · rw [if_pos h1] at hc
        rcases ih none c hc with h | h
        · exact Or.inl (List.mem_cons_of_mem _ h)
        · cases h
      · rw [if_neg h1] at hc
        by_cases h2 : x = '\n'
        · rw [if_pos h2] at hc
          rcases List.mem_cons.1 hc with h | h
          · exact Or.inr (by rw [h])
          · rcases List.mem_cons.1 h with h' | h'
            · exact Or.inl (by rw [h', ← h2]; exact List.mem_cons_self ..)
            · rcases ih none c h' with h'' | h''
              · exact Or.inl (List.mem_cons_of_mem _ h'')
              · cases h''
        · rw [if_neg h2] at hc
          rcases List.mem_cons.1 hc with h | h
          · exact Or.inr (by rw [h])
          · rcases ih (some x) c h with h' | h'
            · exact Or.inl (List.mem_cons_of_mem _ h')
            · exact Or.inl (by cases h'; exact List.mem_cons_self ..)

/-- `bsStrip` only deletes characters. -/
theorem bsStrip_subset (l : List Char) (c : Char) (hc : c ∈ bsStrip l) :
    c ∈ l := by
  rcases bsAux_subset l none c hc with h | h
  · exact h
  · cases h

/-- The space-collapsing automaton emits only input characters. -/
theorem collapseAux_subset (l : List Char) : ∀ (b : Bool) (c : Char),
    c ∈ collapseAux b l → c ∈ l := by
  induction l with
  | nil => intro b c hc; simp [collapseAux] at hc
  | cons x r ih =>
    intro b c hc
    simp only [collapseAux] at hc
    by_cases hx : x = ' '
    · rw [if_pos hx] at hc
      cases b with
      | true =>
        rw [if_pos rfl] at hc
        exact List.mem_cons_of_mem _ (ih true c hc)
      | false =>
        rw [if_neg (by simp)] at hc
        rcases List.mem_cons.1 hc with h | h
        · rw [h, ← hx]; exact List.mem_cons_self ..
        · exact List.mem_cons_of_mem _ (ih true c h)
    · rw [if_neg hx] at hc
      rcases List.mem_cons.1 hc with h | h
      · exact h ▸ List.mem_cons_self ..
      · exact List.mem_cons_of_mem _ (ih false c h)

/-- `collapseSpaces` only deletes characters. -/
theorem collapseSpaces_subset (l : List Char) (c : Char)
    (hc : c ∈ collapseSpaces l) : c ∈ l :=
  collapseAux_subset l false c hc

/-- Members of `dropWhile` are members. -/
theorem mem_of_mem_dropWhile (p : Char → Bool) (l : List Char) (c : Char)
    (h : c ∈ l.dropWhile p) : c ∈ l := by
  induction l with
  | nil => simp at h
  | cons x r ih =>
    rw [List.dropWhile_cons] at h
    by_cases hx : p x = true
    · rw [if_pos hx] at h
      exact List.mem_cons_of_mem _ (ih h)
    · rw [if_neg hx] at h
      exact h

/-- `jsTrim` only deletes characters. -/
theorem jsTrim_subset (l : List Char) (c : Char) (hc : c ∈ jsTrim l) :
    c ∈ l := by
  unfold jsTrim at hc
  rw [List.mem_reverse] at hc
  have h1 := mem_of_mem_dropWhile _ _ _ hc
  rw [List.mem_reverse] at h1
  exact mem_of_mem_dropWhile _ _ _ h1

/-- Characters of split pieces come from the input and are never
newlines. -/
theorem jsSplitNL_chars (l : List Char) : ∀ p ∈ jsSplitNL l, ∀ c ∈ p,
    c ∈ l ∧ ¬(c = '\n') := by
  induction l with
  | nil =>
    intro p hp c hcp
    simp only [jsSplitNL, List.mem_singleton] at hp
    subst hp
    simp at hcp
  | cons x r ih =>
    intro p hp c hcp
    simp only [jsSplitNL] at hp
    by_cases hx : x = '\n'
    · rw [if_pos hx] at hp
      rcases List.mem_cons.1 hp with h | h
      · subst h; simp at hcp
      · obtain ⟨hcr, hnn⟩ := ih p h c hcp
        exact ⟨List.mem_cons_of_mem _ hcr, hnn⟩
    · rw [if_neg hx] at hp
      cases hsp : jsSplitNL r with
      | nil =>
        rw [hsp] at hp
        simp only [List.mem_singleton] at hp
        subst hp
        rcases List.mem_cons.1 hcp with h | h
        · exact ⟨h ▸ List.mem_cons_self .., h ▸ hx⟩
        · simp at h
      | cons p0 ps =>
        rw [hsp] at hp
        rcases List.mem_cons.1 hp with h | h
        · subst h
          rcases List.mem_cons.1 hcp with h' | h'
          · exact ⟨h' ▸ List.mem_cons_self .., h' ▸ hx⟩
          · obtain ⟨hcr, hnn⟩ :=
              ih p0 (by rw [hsp]; exact List.mem_cons_self ..) c h'
            exact ⟨List.mem_cons_of_mem _ hcr, hnn⟩
        · obtain ⟨hcr, hnn⟩ :=
            ih p (by rw [hsp]; exact List.mem_cons_of_mem _ h) c hcp
          exact ⟨List.mem_cons_of_mem _ hcr, hnn⟩

/-- Characters of a join come from the pieces or are the separator. -/
theorem joinNL_chars (ps : List Str) (c : Char) (hc : c ∈ joinNL ps) :
    c = '\n' ∨ ∃ p ∈ ps, c ∈ p := by
  induction ps with
  | nil => simp [joinNL] at hc
  | cons p qs ih =>
    cases qs with
    | nil =>
      simp only [joinNL] at hc
      exact Or.inr ⟨p, List.mem_cons_self .., hc⟩
    | cons q rs =>
      simp only [joinNL] at hc
      rcases List.mem_append.1 hc with h | h
      · exact Or.inr ⟨p, List.mem_cons_self .., h⟩
      · rcases List.mem_cons.1 h with h' | h'
        · exact Or.inl h'
        · rcases ih h' with h'' | ⟨p', hp', hcp'⟩
          · exact Or.inl h''
          · exact Or.inr ⟨p', List.mem_cons_of_mem _ hp', hcp'⟩

/-- Every character `stripAnsiCodes` emits is a newline or a character that
passed the control-byte filters: not in the removed C0 class and not a
carriage return. -/
theorem stripAnsiCodes_chars (s : Str) (c : Char) (hc : c ∈ stripAnsiCodes s) :
    c = '\n' ∨ (isBadC0 c = false ∧ ¬(c = '\r')) := by
  simp only [stripAnsiCodes] at hc
  rcases joinNL_chars _ c hc with h | ⟨p, hp, hcp⟩
  · exact Or.inl h
  · simp only [List.mem_map] at hp
    obtain ⟨p0, hp0, rfl⟩ := hp
    have hc0 : c ∈ p0 := jsTrim_subset _ _ hcp
    have h1 := jsSplitNL_chars _ p0 hp0 c hc0
    obtain ⟨h3, hbad⟩ := List.mem_filter.1 (collapseSpaces_subset _ _ h1.1)
    obtain ⟨h4, hr⟩ := List.mem_filter.1 (bsStrip_subset _ _ h3)
    refine Or.inr ⟨?_, ?_⟩
    · simpa using hbad
    · simpa using hr

/-! ### Identity lemmas: each pipeline stage is a no-op on clean input -/

/-- Without an escape byte the CSI automaton copies its input. -/
theorem csiRun_top_id : ∀ l : List Char, esc ∉ l → csiRun .top l = l := by
  intro l
  induction l with
  | nil => intro _; rfl
  | cons x r ih =>
    intro h
    have hx : ¬(x = esc) := fun hh => h (hh ▸ List.mem_cons_self ..)
    have hr : esc ∉ r := fun hm => h (List.mem_cons_of_mem _ hm)
    simp [csiRun, hx, ih hr]

/-- Without an escape byte the OSC automaton copies its input. -/
theorem oscRun_top_id : ∀ l : List Char, esc ∉ l → oscRun .top l = l := by
  intro l
  induction l with
  | nil => intro _; rfl
  | cons x r ih =>
    intro h
    have hx : ¬(x = esc) := fun hh => h (hh ▸ List.mem_cons_self ..)
    have hr : esc ∉ r := fun hm => h (List.mem_cons_of_mem _ hm)
    simp [oscRun, hx, ih hr]

/-- Without an escape byte the two-byte-escape automaton copies its input. -/
theorem escEqGtAux_id : ∀ l : List Char, esc ∉ l → escEqGtAux false l = l := by
  intro l
  induction l with
  | nil => intro _; rfl
  | cons x r ih =>
    intro h
    have hx : ¬(x = esc) := fun hh => h (hh ▸ List.mem_cons_self ..)
    have hr : esc ∉ r := fun hm => h (List.mem_cons_of_mem _ hm)
    simp [escEqGtAux, hx, ih hr]

/-- Without a backspace byte the backspace automaton copies its input. -/
theorem bsAux_id : ∀ l : List Char, '\x08' ∉ l →
    bsAux none l = l ∧ ∀ p, bsAux (some p) l = p :: l := by
  intro l
  induction l with
  | nil => intro _; exact ⟨rfl, fun _ => rfl⟩
  | cons x r ih =>
    intro h
    have hx : ¬(x = '\x08') := fun hh => h (hh ▸ List.mem_cons_self ..)
    have hr : '\x08' ∉ r := fun hm => h (List.mem_cons_of_mem _ hm)
    obtain ⟨ih1, ih2⟩ := ih hr
    constructor
    · by_cases hn : x = '\n'
      · simp [bsAux, hn, ih1]
      · simp [bsAux, hn, ih2 x]
    · intro p
      by_cases hn : x = '\n'
      · simp [bsAux, hx, hn, ih1]
      · simp [bsAux, hx, hn, ih2 x]

/-- Bool conjunction elimination. -/
theorem bool_and_mp {a b : Bool} (h : (a && b) = true) : a = true ∧ b = true := by
  simp only [Bool.and_eq_true] at h
  exact h

/-- Bool conjunction introduction. -/
theorem bool_and_mpr {a b : Bool} (h1 : a = true) (h2 : b = true) :
    (a && b) = true := by
  simp [h1, h2]

/-- Does the string start with a space? -/
def headSp : List Char → Bool
  | [] => false
  | c :: _ => c = ' '

/-- No two adjacent spaces anywhere. -/
def noDS : List Char → Bool
  | [] => true
  | [_] => true
  | a :: b :: t => !(a = ' ' && b = ' ') && noDS (b :: t)

/-- Unfolding `noDS` one character at a time. -/
theorem noDS_cons (c : Char) (t : List Char) :
    noDS (c :: t) = (!(decide (c = ' ') && headSp t) && noDS t) := by
  cases t with
  | nil => simp [noDS, headSp]
  | cons d t' => simp [noDS, headSp]

/-- The collapsing automaton's output has no double spaces; in collapsing
mode it also never begins with a space. -/
theorem collapseAux_noDS : ∀ l : List Char,
    noDS (collapseAux false l) = true ∧ noDS (collapseAux true l) = true ∧
    headSp (collapseAux true l) = false := by
  intro l
  induction l with
  | nil => exact ⟨rfl, rfl, rfl⟩
  | cons x r ih =>
    obtain ⟨ih1, ih2, ih3⟩ := ih
    by_cases hx : x = ' '
    · subst hx
      refine ⟨?_, ?_, ?_⟩
      · show noDS (' ' :: collapseAux true r) = true
        rw [noDS_cons]
        simp [ih2, ih3]
      · show noDS (collapseAux true r) = true
        exact ih2
      · show headSp (collapseAux true r) = false
        exact ih3
    · refine ⟨?_, ?_, ?_⟩
      · show noDS (collapseAux false (x :: r)) = true
        simp only [collapseAux]
        rw [if_neg hx, noDS_cons]
        simp [hx, ih1]
      · show noDS (collapseAux true (x :: r)) = true
        simp only [collapseAux]
        rw [if_neg hx, noDS_cons]
        simp [hx, ih1]
      · show headSp (collapseAux true (x :: r)) = false
        simp only [collapseAux]
        rw [if_neg hx]
        simp [headSp, hx]

/-- With no double spaces the collapsing automaton copies its input (and in
collapsing mode, whenever the input does not begin with a space). -/
theorem collapseAux_id : ∀ l : List Char, noDS l = true →
    collapseAux false l = l ∧ (headSp l = false → collapseAux true l = l) := by
  intro l
  induction l with
  | nil => intro _; exact ⟨rfl, fun _ => rfl⟩
  | cons x r ih =>
    intro h
    rw [noDS_cons] at h
    obtain ⟨h1, h2⟩ := bool_and_mp h
    obtain ⟨ih1, ih2⟩ := ih h2
    constructor
    · by_cases hx : x = ' '
      · have hsp : headSp r = false := by
          subst hx
          simpa using h1
        simp [collapseAux, hx, ih2 hsp]
      · simp [collapseAux, hx, ih1]
    · intro hhead
      have hx : ¬(x = ' ') := by simpa [headSp] using hhead
      simp [collapseAux, hx, ih1]

/-- `noDS` passes to the right part of an append. -/
theorem noDS_append_right : ∀ s t : List Char,
    noDS (s ++ t) = true → noDS t = true := by
  intro s
  induction s with
  | nil => exact fun t h => h
  | cons a s' ih =>
    intro t h
    rw [List.cons_append, noDS_cons] at h
    exact ih t (bool_and_mp h).2

/-- `noDS` passes to the left part of an append. -/
theorem noDS_append_left : ∀ s t : List Char,
    noDS (s ++ t) = true → noDS s = true := by
  intro s
  induction s with
  | nil => intro t _; rfl
  | cons a s' ih =>
    intro t h
    rw [List.cons_append, noDS_cons] at h
    obtain ⟨h1, h2⟩ := bool_and_mp h
    rw [noDS_cons]
    refine bool_and_mpr ?_ (ih t h2)
    cases s' with
    | nil => simp [headSp]
    | cons b s'' => simpa [headSp] using h1

/-- Joining `noDS` pieces with newlines yields a `noDS` string. -/
theorem noDS_append_nl : ∀ p J : List Char, noDS p = true → noDS J = true →
    noDS (p ++ '\n' :: J) = true := by
  intro p
  induction p with
  | nil =>
    intro J _ hJ
    rw [List.nil_append, noDS_cons]
    refine bool_and_mpr ?_ hJ
    simp
  | cons a p' ih =>
    intro J hp hJ
    rw [List.cons_append, noDS_cons]
    rw [noDS_cons] at hp
    obtain ⟨hp1, hp2⟩ := bool_and_mp hp
    refine bool_and_mpr ?_ (ih J hp2 hJ)
    cases p' with
    | nil => simp [headSp]
    | cons b p'' => simpa [headSp] using hp1

/-- `joinNL` preserves `noDS`. -/
theorem noDS_joinNL : ∀ ps : List Str, (∀ p ∈ ps, noDS p = true) →
    noDS (joinNL ps) = true := by
  intro ps
  induction ps with
  | nil => intro _; rfl
  | cons p qs ih =>
    intro h
    cases qs with
    | nil => exact h p (List.mem_cons_self ..)
    | cons q rs =>
      rw [joinNL]
      exact noDS_append_nl p _ (h p (List.mem_cons_self ..))
        (ih (fun x hx => h x (List.mem_cons_of_mem _ hx)))

/-- The head of the first split piece. -/
theorem jsSplitNL_head : ∀ l : List Char,
    ∃ ps, jsSplitNL l = (l.takeWhile (fun c => !(c = '\n'))) :: ps := by
  intro l
  induction l with
  | nil => exact ⟨[], rfl⟩
  | cons x r ih =>
    by_cases hx : x = '\n'
    · refine ⟨jsSplitNL r, ?_⟩
      simp [jsSplitNL, hx, List.takeWhile_cons]
    · obtain ⟨ps, hps⟩ := ih
      refine ⟨ps, ?_⟩
      simp only [jsSplitNL, hx, if_false, List.takeWhile_cons]
      rw [hps]
      simp [hx]

/-- A space head of the first piece reflects a space head of the input. -/
theorem headSp_takeWhile (l : List Char)
    (h : headSp (l.takeWhile (fun c => !(c = '\n'))) = true) :
    headSp l = true := by
  cases l with
  | nil => simp [headSp] at h
  | cons y r =>
    rw [List.takeWhile_cons] at h
    by_cases hy : y = '\n'
    · rw [if_neg (by simp [hy])] at h
      simp [headSp] at h
    · rw [if_pos (by simp [hy])] at h
      exact h

/-- Split pieces of a `noDS` string are `noDS`. -/
theorem jsSplitNL_noDS : ∀ l : List Char, noDS l = true →
    ∀ p ∈ jsSplitNL l, noDS p = true := by
  intro l
  induction l with
  | nil =>
    intro _ p hp
    simp only [jsSplitNL, List.mem_singleton] at hp
    subst hp
    rfl
  | cons x r ih =>
    intro h p hp
    rw [noDS_cons] at h
    obtain ⟨h1, hr⟩ := bool_and_mp h
    simp only [jsSplitNL] at hp
    by_cases hx : x = '\n'
    · rw [if_pos hx] at hp
      rcases List.mem_cons.1 hp with h' | h'
      · subst h'; rfl
      · exact ih hr p h'
    · rw [if_neg hx] at hp
      obtain ⟨ps, hps⟩ := jsSplitNL_head r
      rw [hps] at hp
      rcases List.mem_cons.1 hp with h' | h'
      · subst h'
        rw [noDS_cons]
        refine bool_and_mpr ?_ ?_
        · by_cases hsp :
              headSp (r.takeWhile (fun c => !(c = '\n'))) = true
          · have hspr := headSp_takeWhile r hsp
            rw [hspr] at h1
            simp only [Bool.and_true, Bool.not_eq_true',
              decide_eq_false_iff_not] at h1
            simp [hsp, h1]
          · simp only [Bool.not_eq_true] at hsp
            simp [hsp]
        · have htd := List.takeWhile_append_dropWhile
            (p := fun c => !(c = '\n')) (l := r)
          exact noDS_append_left _ _ (by rw [htd]; exact hr)
      · exact ih hr p (by rw [hps]; exact List.mem_cons_of_mem _ h')

/-- `jsTrim` preserves `noDS`. -/
theorem noDS_jsTrim (l : List Char) (h : noDS l = true) :
    noDS (jsTrim l) = true := by
  have h1 : noDS (l.dropWhile isJsSpace) = true := by
    have htd := List.takeWhile_append_dropWhile (p := isJsSpace) (l := l)
    exact noDS_append_right _ _ (by rw [htd]; exact h)
  obtain ⟨t, ht⟩ := List.rdropWhile_prefix isJsSpace (l.dropWhile isJsSpace)
  have : jsTrim l = List.rdropWhile isJsSpace (l.dropWhile isJsSpace) := rfl
  rw [this]
  exact noDS_append_left _ _ (by rw [ht]; exact h1)

/-- If `dropWhile` keeps a cons intact, its head fails the predicate. -/
theorem dropWhile_self_head (p : Char → Bool) (c : Char) (rest : List Char)
    (h : (c :: rest).dropWhile p = c :: rest) : p c = false := by
  by_cases hp : p c = true
  · rw [List.dropWhile_cons, if_pos hp] at h
    have hle : (rest.dropWhile p).length ≤ rest.length :=
      (List.dropWhile_sublist _).length_le
    have hlen := congrArg List.length h
    simp only [List.length_cons] at hlen
    omega
  · simpa using hp

/-- `jsTrim` is idempotent. -/
theorem jsTrim_idem (l : List Char) : jsTrim (jsTrim l) = jsTrim l := by
  have he : ∀ x : List Char,
      jsTrim x = List.rdropWhile isJsSpace (x.dropWhile isJsSpace) :=
    fun _ => rfl
  rw [he l, he (List.rdropWhile isJsSpace (l.dropWhile isJsSpace))]
  have hAdrop : (l.dropWhile isJsSpace).dropWhile isJsSpace =
      l.dropWhile isJsSpace := List.dropWhile_idempotent _ _
  have hkey : (List.rdropWhile isJsSpace
      (l.dropWhile isJsSpace)).dropWhile isJsSpace =
      List.rdropWhile isJsSpace (l.dropWhile isJsSpace) := by
    cases hD : List.rdropWhile isJsSpace (l.dropWhile isJsSpace) with
    | nil => simp
    | cons d D' =>
      obtain ⟨t, ht⟩ :=
        List.rdropWhile_prefix isJsSpace (l.dropWhile isJsSpace)
      rw [hD] at ht
      have hA : l.dropWhile isJsSpace = d :: (D' ++ t) := by
        rw [← ht]
        rfl
      rw [hA] at hAdrop
      have hpd : isJsSpace d = false := dropWhile_self_head _ _ _ hAdrop
      rw [List.dropWhile_cons, if_neg (by simp [hpd])]
  rw [hkey, List.rdropWhile_idempotent]

/-- `jsSplitNL` never returns the empty list. -/
theorem jsSplitNL_ne_nil : ∀ l : List Char, jsSplitNL l ≠ [] := by
  intro l
  cases l with
  | nil => simp [jsSplitNL]
  | cons x r =>
    by_cases hx : x = '\n'
    · simp [jsSplitNL, hx]
    · cases hsp : jsSplitNL r <;> simp [jsSplitNL, hx, hsp]

/-! ### Claim C7 -/

/-- The first seven replaces of `stripAnsiCodes` (everything before the
space collapsing and the split/trim/join). -/
def preCollapse (s : Str) : Str :=
  (bsStrip (((escEqGtStrip (oscStrip (csiStrip s))).filter
    (fun c => c ≠ '\x07')).filter (fun c => c ≠ '\r'))).filter
    (fun c => !isBadC0 c)

/-- `stripAnsiCodes` through `preCollapse`. -/
theorem stripAnsiCodes_eq_structural (s : Str) :
    stripAnsiCodes s =
      joinNL ((jsSplitNL (collapseSpaces (preCollapse s))).map jsTrim) := rfl

/-- Claim C7: the normalization stripping function is idempotent — applying
the escape-stripping / space-collapsing / line-trimming transformation twice
gives the same result as applying it once.  Confirmed: the first pass leaves
no escape, bell, carriage-return or backspace bytes and no other stripped
control bytes, no double spaces, and only trimmed newline-separated lines,
so every stage of the second pass copies its input. -/
theorem c7_stripAnsiCodes_idem (s : Str) :
    stripAnsiCodes (stripAnsiCodes s) = stripAnsiCodes s := by
  set O := stripAnsiCodes s with hOdef
  have hchars : ∀ c ∈ O, c = '\n' ∨ (isBadC0 c = false ∧ ¬(c = '\r')) :=
    fun c hc => stripAnsiCodes_chars s c hc
  have hesc : esc ∉ O := by
    intro hmem
    rcases hchars esc hmem with h | ⟨hb, -⟩
    · exact absurd h (by decide)
    · exact absurd hb (by decide)
  have h07 : '\x07' ∉ O := by
    intro hmem
    rcases hchars '\x07' hmem with h | ⟨hb, -⟩
    · exact absurd h (by decide)
    · exact absurd hb (by decide)
  have h08 : '\x08' ∉ O := by
    intro hmem
    rcases hchars '\x08' hmem with h | ⟨hb, -⟩
    · exact absurd h (by decide)
    · exact absurd hb (by decide)
  have hcr : '\r' ∉ O := by
    intro hmem
    rcases hchars '\r' hmem with h | ⟨-, hr⟩
    · exact absurd h (by decide)
    · exact absurd rfl hr
  have s1 : csiStrip O = O := csiRun_top_id O hesc
  have s2 : oscStrip O = O := oscRun_top_id O hesc
  have s3 : escEqGtStrip O = O := escEqGtAux_id O hesc
  have s4 : O.filter (fun c => c ≠ '\x07') = O := by
    rw [List.filter_eq_self]
    intro a ha
    have : ¬(a = '\x07') := fun heq => h07 (heq ▸ ha)
    simpa using this
  have s5 : O.filter (fun c => c ≠ '\r') = O := by
    rw [List.filter_eq_self]
    intro a ha
    have : ¬(a = '\r') := fun heq => hcr (heq ▸ ha)
    simpa using this
  have s6 : bsStrip O = O := (bsAux_id O h08).1
  have s7f : O.filter (fun c => !isBadC0 c) = O := by
    rw [List.filter_eq_self]
    intro a ha
    rcases hchars a ha with h | ⟨hb, -⟩
    · subst h; decide
    · simp [hb]
  have hnods : noDS O = true := by
    rw [hOdef, stripAnsiCodes_eq_structural]
    apply noDS_joinNL
    intro p hp
    simp only [List.mem_map] at hp
    obtain ⟨p0, hp0, rfl⟩ := hp
    exact noDS_jsTrim _
      (jsSplitNL_noDS _ (collapseAux_noDS (preCollapse s)).1 p0 hp0)
  have s8 : collapseSpaces O = O := (collapseAux_id O hnods).1
  have hpre : preCollapse O = O := by
    unfold preCollapse
    rw [s1, s2, s3, s4, s5, s6, s7f]
  have hponl : ∀ p ∈ (jsSplitNL (collapseSpaces (preCollapse s))).map jsTrim,
      '\n' ∉ p := by
    intro p hp hmem
    simp only [List.mem_map] at hp
    obtain ⟨p0, hp0, rfl⟩ := hp
    exact (jsSplitNL_chars _ p0 hp0 '\n' (jsTrim_subset _ _ hmem)).2 rfl
  have hsplit : jsSplitNL O =
      (jsSplitNL (collapseSpaces (preCollapse s))).map jsTrim := by
    rw [hOdef, stripAnsiCodes_eq_structural]
    refine jsSplitNL_joinNL _ ?_ hponl
    intro hnil
    exact jsSplitNL_ne_nil (collapseSpaces (preCollapse s))
      (List.map_eq_nil_iff.mp hnil)
  have htrimmed :
      ((jsSplitNL (collapseSpaces (preCollapse s))).map jsTrim).map jsTrim =
      (jsSplitNL (collapseSpaces (preCollapse s))).map jsTrim := by
    rw [List.map_map]
    apply List.map_congr_left
    intro p0 _
    exact jsTrim_idem p0
  calc stripAnsiCodes O
      = joinNL ((jsSplitNL (collapseSpaces (preCollapse O))).map jsTrim) :=
        stripAnsiCodes_eq_structural O
    _ = joinNL ((jsSplitNL O).map jsTrim) := by rw [hpre, s8]
    _ = joinNL ((jsSplitNL (collapseSpaces (preCollapse s))).map jsTrim) := by
        rw [hsplit, htrimmed]
    _ = O := (stripAnsiCodes_eq_structural s).symm.trans hOdef.symm

/-! ### Claim C6 -/

/-- Claim C6, counterexample: the chunk `"a\tb\n"` stores the line
`"a\tb"`, which contains the C0 control byte TAB (0x09) — the pipeline's
control-byte class `[\x00-\x08\x0B\x0C\x0E-\x1F]` spares 0x09. -/
theorem c6_counterexample :
    surviving ("a\tb\n".data) = ["a\tb".data] ∧
    '\t' ∈ "a\tb".data ∧ '\t'.toNat < 0x20 ∧ ¬('\t' = '\x1b') :=
  ⟨rfl, by decide, by decide, by decide⟩

/-- Claim C6, amended: for every raw chunk, every line stored in the buffer
after normalization contains zero 0x1B bytes, and no C0 control byte other
than TAB (0x09) — the stripping removes every 0x1B and every C0 byte except
0x09, and the newline only serves as the line separator.  TAB itself
survives (see the counterexample). -/
theorem c6_no_escape_bytes (data line : Str) (hl : line ∈ surviving data)
    (c : Char) (hc : c ∈ line) :
    ¬(c = esc) ∧ (c.toNat < 0x20 → c = '\t') := by
  have hline : line ∈ (jsSplitNL (stripAnsiCodes data)).map jsTrim := by
    unfold surviving at hl
    exact (List.mem_filter.1 hl).1
  simp only [List.mem_map] at hline
  obtain ⟨p0, hp0, rfl⟩ := hline
  have hc0 : c ∈ p0 := jsTrim_subset _ _ hc
  have h1 := jsSplitNL_chars _ p0 hp0 c hc0
  rcases stripAnsiCodes_chars data c h1.1 with h | ⟨hbad, hr⟩
  · exact absurd h h1.2
  · constructor
    · intro he
      rw [he] at hbad
      exact absurd hbad (by decide)
    · intro hlt
      have h10 : ¬(c.toNat = 10) := fun hn =>
        h1.2 (char_eq_of_toNat c '\n' (by rw [hn]; rfl))
      have h13 : ¬(c.toNat = 13) := fun hn =>
        hr (char_eq_of_toNat c '\r' (by rw [hn]; rfl))
      have hbad' : ¬(c.toNat ≤ 8 ∨ c.toNat = 11 ∨ c.toNat = 12 ∨
          (14 ≤ c.toNat ∧ c.toNat ≤ 31)) := by
        intro hcontra
        have htrue : isBadC0 c = true := by
          unfold isBadC0
          simp only [Bool.or_eq_true, Bool.and_eq_true, decide_eq_true_eq]
          omega
        rw [hbad] at htrue
        exact absurd htrue (by decide)
      have h9 : c.toNat = 9 := by omega
      exact char_eq_of_toNat c '\t' (by rw [h9]; rfl)

/-- Claim C6, witness: the specification's example chunk stores exactly
`"Build OK"`, whose characters carry no escape or control bytes. -/
theorem c6_no_escape_bytes_witness :
    ("Build OK".data ∈ surviving ("\x1b[32mBuild OK\x1b[0m\n".data)) ∧
    ('B' ∈ "Build OK".data) ∧
    (¬('B' = esc) ∧ ('B'.toNat < 0x20 → 'B' = '\t')) := by
  have hs : surviving ("\x1b[32mBuild OK\x1b[0m\n".data) =
      ["Build OK".data] := rfl
  have hmem : "Build OK".data ∈ surviving ("\x1b[32mBuild OK\x1b[0m\n".data) := by
    rw [hs]
    exact List.mem_cons_self ..
  exact ⟨hmem, by decide, c6_no_escape_bytes _ _ hmem 'B' (by decide)⟩

/-! ### Claim C9 -/

/-- `lookupWeak` on a cons. -/
theorem lookupWeak_cons (e : Nat × Str) (rest : List (Nat × Str)) (h : Nat) :
    lookupWeak (e :: rest) h =
      if e.1 = h then some e.2 else lookupWeak rest h := by
  by_cases hc : e.1 = h <;> simp [lookupWeak, List.find?_cons, hc]

/-- A present `WeakMap` binding survives appending fresh entries. -/
theorem lookupWeak_append (wm x : List (Nat × Str)) (h : Nat) (id : Str)
    (hl : lookupWeak wm h = some id) : lookupWeak (wm ++ x) h = some id := by
  induction wm with
  | nil => simp [lookupWeak] at hl
  | cons e rest ih =>
    rw [List.cons_append, lookupWeak_cons]
    rw [lookupWeak_cons] at hl
    by_cases hc : e.1 = h
    · rwa [if_pos hc] at hl ⊢
    · rw [if_neg hc] at hl ⊢
      exact ih hl

/-- `getTerminalId` never rebinds a handle that is already bound. -/
theorem getTerminalId_weak_mono (st : ServiceState) (t : VTerminal) (h : Nat)
    (id : Str) (hl : lookupWeak st.weakMap h = some id) :
    lookupWeak (getTerminalId st t).2.weakMap h = some id := by
  unfold getTerminalId
  cases hw : lookupWeak st.weakMap t.handle with
  | some id' => simpa [hw] using hl
  | none =>
    simp only [hw]
    exact lookupWeak_append _ _ _ _ hl

/-- `getTerminalId` does not touch the registry. -/
theorem getTerminalId_terminals (st : ServiceState) (t : VTerminal) :
    (getTerminalId st t).2.terminals = st.terminals := by
  unfold getTerminalId
  cases hw : lookupWeak st.weakMap t.handle <;> simp [hw]

/-- `captureTerminalData` does not touch the `WeakMap`. -/
theorem captureTerminalData_weakMap (st : ServiceState) (t : VTerminal)
    (d : Str) : (captureTerminalData st t d).weakMap = st.weakMap := by
  unfold captureTerminalData
  cases hw : lookupWeak st.weakMap t.handle with
  | none => rfl
  | some id =>
    by_cases h1 : id = []
    · simp [h1]
    · by_cases h2 : st.terminals.any (fun td => td.id = id) <;> simp [h1, h2]

/-- One host signal never changes an existing handle-to-id binding. -/
theorem step_weak_mono (st : ServiceState) (e : HostEvent) (h : Nat)
    (id : Str) (hl : lookupWeak st.weakMap h = some id) :
    lookupWeak (step st e).weakMap h = some id := by
  cases e with
  | opened t =>
    show lookupWeak (registerTerminal st t).weakMap h = some id
    unfold registerTerminal
    by_cases hany :
        (getTerminalId st t).2.terminals.any
          (fun td => td.id = (getTerminalId st t).1) = true
    · simpa [hany] using getTerminalId_weak_mono st t h id hl
    · simpa [hany] using getTerminalId_weak_mono st t h id hl
  | closed t =>
    show lookupWeak (unregisterTerminal st t).weakMap h = some id
    unfold unregisterTerminal
    simpa using getTerminalId_weak_mono st t h id hl
  | dataWritten t d =>
    show lookupWeak (captureTerminalData st t d).weakMap h = some id
    rw [captureTerminalData_weakMap]
    exact hl

/-- A handle-to-id binding, once made, survives any further host signals. -/
theorem run_weak_mono (st : ServiceState) (evs : List HostEvent) (h : Nat)
    (id : Str) (hl : lookupWeak st.weakMap h = some id) :
    lookupWeak (run st evs).weakMap h = some id := by
  induction evs generalizing st with
  | nil => exact hl
  | cons e rest ih => exact ih (step st e) (step_weak_mono st e h id hl)

/-- `captureTerminalData` rewrites sessions in place: the list of live ids
is untouched. -/
theorem captureTerminalData_ids (st : ServiceState) (t : VTerminal) (d : Str) :
    (captureTerminalData st t d).terminals.map (fun x => x.id) =
      st.terminals.map (fun x => x.id) := by
  unfold captureTerminalData
  cases hw : lookupWeak st.weakMap t.handle with
  | none => rfl
  | some id =>
    by_cases h1 : id = []
    · simp [h1]
    · by_cases h2 : st.terminals.any (fun td => td.id = id) = true
      · simp only [h1, if_false, h2, if_true]
        rw [List.map_map]
        apply List.map_congr_left
        intro td _
        by_cases hid : td.id = id <;> simp [hid]
      · simp [h1, h2]

/-- One host signal preserves distinctness of the live sessions' ids. -/
theorem step_ids_nodup (st : ServiceState) (e : HostEvent)
    (h : (st.terminals.map (fun t => t.id)).Nodup) :
    ((step st e).terminals.map (fun t => t.id)).Nodup := by
  cases e with
  | opened t =>
    show ((registerTerminal st t).terminals.map (fun t => t.id)).Nodup
    simp only [registerTerminal]
    split
    · next hany => rw [getTerminalId_terminals]; exact h
    · next hany =>
      simp only [List.map_append, getTerminalId_terminals, List.map_cons,
        List.map_nil, List.nodup_append, List.nodup_singleton, true_and]
      rw [List.any_eq_true] at hany
      push_neg at hany
      refine ⟨h, ?_⟩
      intro x hx hmem
      simp only [List.mem_map] at hx
      obtain ⟨td, htd, rfl⟩ := hx
      simp only [List.mem_singleton] at hmem
      have htd' : td ∈ (getTerminalId st t).2.terminals := by
        rwa [getTerminalId_terminals]
      exact absurd hmem (by simpa using hany td htd')
  | closed t =>
    show ((unregisterTerminal st t).terminals.map (fun t => t.id)).Nodup
    simp only [unregisterTerminal]
    have h2 : ((getTerminalId st t).2.terminals.map (fun x => x.id)).Nodup := by
      rwa [getTerminalId_terminals]
    exact List.Nodup.sublist ((List.filter_sublist _).map _) h2
  | dataWritten t d =>
    show ((captureTerminalData st t d).terminals.map (fun t => t.id)).Nodup
    rw [captureTerminalData_ids]
    exact h

/-- Live sessions always carry pairwise distinct identifiers. -/
theorem run_ids_nodup (cap : Nat) (evs : List HostEvent) :
    ((run (initState cap) evs).terminals.map (fun t => t.id)).Nodup := by
  suffices hgen : ∀ st : ServiceState,
      (st.terminals.map (fun t => t.id)).Nodup →
      ((run st evs).terminals.map (fun t => t.id)).Nodup by
    exact hgen (initState cap) (by simp [initState])
  induction evs with
  | nil => exact fun st h => h
  | cons e rest ih => exact fun st h => ih (step st e) (step_ids_nodup st e h)

/-- Claim C9, counterexample: closing a terminal handle and re-opening the
same handle creates a new session (fresh empty buffer, later creation time)
that reuses the destroyed session's identifier — the `WeakMap` entry made at
first registration survives the close. -/
theorem c9_counterexample :
    (run (initState 5) [.opened tBash, .dataWritten tBash ("hello\n".data)]).terminals =
      [{ id := "terminal-0-bash".data, name := "bash".data, processId := none,
         buffer := ["hello".data], createdAt := 0, lastActivity := 1 }] ∧
    (run (initState 5) [.opened tBash, .dataWritten tBash ("hello\n".data),
        .closed tBash, .opened tBash]).terminals =
      [{ id := "terminal-0-bash".data, name := "bash".data, processId := none,
         buffer := [], createdAt := 3, lastActivity := 3 }] := by
  decide

/-- Claim C9, amended: a session's identifier never changes while the
session lives — the handle-to-identifier binding, once made, survives every
later host signal — and no two simultaneously live sessions share an
identifier.  However, re-opening a previously closed handle creates a new
session that reuses the old identifier (see the counterexample), so
identifiers are not never-reused across a handle's close/re-open. -/
theorem c9_id_stability (cap : Nat) (evs : List HostEvent) :
    ((run (initState cap) evs).terminals.map (fun t => t.id)).Nodup ∧
    (∀ h id, lookupWeak (run (initState cap) evs).weakMap h = some id →
      ∀ evs2, lookupWeak (run (run (initState cap) evs) evs2).weakMap h =
        some id) :=
  ⟨run_ids_nodup cap evs,
   fun h id hl evs2 => run_weak_mono _ evs2 h id hl⟩

/-- Claim C9, witness: after registering one terminal its binding is intact
and survives the close signal. -/
theorem c9_id_stability_witness :
    ((run (initState 1) [.opened tBash]).terminals.map (fun t => t.id)).Nodup ∧
    lookupWeak (run (run (initState 1) [.opened tBash]) [.closed tBash]).weakMap
      0 = some ("terminal-0-bash".data) :=
  ⟨(c9_id_stability 1 [.opened tBash]).1,
   (c9_id_stability 1 [.opened tBash]).2 0 ("terminal-0-bash".data)
     (by decide) [.closed tBash]⟩

/-! ### Claim C10 -/

/-- Claim C10, counterexample: a request with a present id (`"x"`) but
method `tools/call` and absent `params` makes `handleRequest` throw instead
of returning a response; the socket layer then writes back a parse error
bearing id `null`, not the request's id. -/
theorem c10_counterexample :
    handleRequest [] ⟨some (.str ("x".data)), "tools/call".data, none⟩ =
      .error paramsDestructureFault ∧
    handleLine [] ⟨some (.str ("x".data)), "tools/call".data, none⟩ =
      some ⟨RpcId.null, none,
        some ⟨-32700, "Parse error: ".data ++ paramsDestructureFault.message⟩⟩ ∧
    RpcId.null ≠ RpcId.str ("x".data) := by
  exact ⟨rfl, rfl, by decide⟩

/-- Claim C10, amended: `handleRequest` returns `null` exactly when the
request's id is undefined; for every request whose id is present — including
`0`, the empty string and `null` — and which is not a `tools/call` with
absent `params` (which throws; see the counterexample), a response bearing
that same id is returned and written back by the socket handler. -/
theorem c10_id_echo (ts : List TerminalData) (req : MCPRequest) :
    (req.id = none → handleRequest ts req = .ok none) ∧
    (∀ i, req.id = some i →
      (req.method = "tools/call".data → req.params ≠ none) →
      ∃ resp, handleRequest ts req = .ok (some resp) ∧ resp.id = i ∧
        handleLine ts req = some resp) := by
  obtain ⟨oid, method, pars⟩ := req
  constructor
  · intro h
    simp only at h
    subst h
    rfl
  · intro i hi hp
    simp only at hi hp
    subst hi
    have main : ∃ resp,
        handleRequest ts ⟨some i, method, pars⟩ = .ok (some resp) ∧
        resp.id = i := by
      simp only [handleRequest]
      by_cases h1 : method = "initialize".data
      · exact ⟨handleInitialize i, by rw [if_pos h1], rfl⟩
      · rw [if_neg h1]
        by_cases h2 : method = "ping".data
        · exact ⟨createResponse i .emptyResult, by rw [if_pos h2], rfl⟩
        · rw [if_neg h2]
          by_cases h3 : method = "tools/list".data
          · exact ⟨createResponse i .toolsListResult, by rw [if_pos h3], rfl⟩
          · rw [if_neg h3]
            by_cases h4 : method = "tools/call".data
            · rw [if_pos h4]
              cases hpp : pars with
              | none => cases (hp h4) hpp
              | some p =>
                obtain ⟨r, hr, hrid⟩ := handleToolsCall_ok ts i p
                exact ⟨r, by rw [hr]; rfl, hrid⟩
            · rw [if_neg h4]
              by_cases h5 : method = "resources/list".data
              · exact ⟨createResponse i .resourcesEmpty, by rw [if_pos h5], rfl⟩
              · rw [if_neg h5]
                by_cases h6 : method = "prompts/list".data
                · exact ⟨createResponse i .promptsEmpty, by rw [if_pos h6], rfl⟩
                · rw [if_neg h6]
                  exact ⟨createErrorResponse i (-32601)
                    ("Method not found: ".data ++ method), rfl, rfl⟩
    obtain ⟨resp, hr, hid⟩ := main
    exact ⟨resp, hr, hid, by unfold handleLine; rw [hr]⟩

/-- Claim C10, witness: a `ping` with id `0` is answered with id `0`. -/
theorem c10_id_echo_witness :
    ∃ resp, handleRequest [] ⟨some (.num 0), "ping".data, none⟩ =
        .ok (some resp) ∧ resp.id = .num 0 ∧
      handleLine [] ⟨some (.num 0), "ping".data, none⟩ = some resp :=
  (c10_id_echo [] ⟨some (.num 0), "ping".data, none⟩).2 (.num 0) rfl
    (by decide)

end TermHook
